import Mathlib

/-!
MSP432 Launchpad FatFS shell: line editor, main loop, path resolver and commands.

A shallow embedding of `MSP432-Launchpad-FatFS-SDCard/main.c`.

* A `char` array is a `List Nat` holding one byte value per element; the
  declared size of the array is the length of the list.
* A C function that would read or write outside an array has no defined
  result; such a step is `none`.
* Calls into FatFs are not modelled: the result of a call is an input of the
  embedded function, and every call is recorded in `Shell.fsCalls`, with the
  path string it was given when it takes one.
* Bytes written to the UART (by `printf` through the `fputc`/`fputs` override,
  or by `EUSCI_A_UART_transmitData`) are appended to a log.
* `size_t` sums of string lengths are not reduced modulo `2 ^ 32`: both strings
  are resident in the same 32-bit address space, so the sums cannot wrap.
-/

namespace MSP432

/-! ## Constants -/

/-- Size of the two path buffers (`#define PATH_BUF_SIZE 80`). -/
def PATH_BUF_SIZE : Nat := 80

/-- Size of the command line buffer (`#define CMD_BUF_SIZE 64`). -/
def CMD_BUF_SIZE : Nat := 64

/-- Modelled from the spec: `ff.h` is not part of the sources; `FR_OK` is the
success code of the filesystem library, and success is the value 0. -/
def FR_OK : Nat := 0

/-- Byte values of the characters of a string literal. -/
def bytes (str : String) : List Nat := str.toList.map Char.toNat

/-! ## C strings and the `<string.h>` functions used by the shell -/

/-- The C string stored at the start of an array: the bytes before the first NUL. -/
def cstr (a : List Nat) : List Nat := a.takeWhile (fun c => c != 0)

/-- Semantics of `strlen(a)`: the index of the first NUL; undefined when the array
holds no NUL. -/
def strlen (a : List Nat) : Option Nat :=
  if 0 ∈ a then some (cstr a).length else none

/-- Semantics of `strcpy(dst, src)`: the string of `src` and its NUL replace the
first bytes of `dst`; undefined when `src` holds no NUL or `dst` is too small. -/
def strcpy (dst src : List Nat) : Option (List Nat) :=
  if 0 ∈ src ∧ (cstr src).length + 1 ≤ dst.length then
    some (cstr src ++ 0 :: dst.drop ((cstr src).length + 1))
  else none

/-- Semantics of `strncpy(dst, src, n)`: exactly `n` bytes of `dst` are written, the
characters of `src` up to its NUL (at most `n` of them) followed by NUL padding. -/
def strncpy (dst src : List Nat) (n : Nat) : Option (List Nat) :=
  if n ≤ dst.length ∧ (0 ∈ src.take n ∨ n ≤ src.length) then
    some (cstr (src.take n) ++ List.replicate (n - (cstr (src.take n)).length) 0 ++ dst.drop n)
  else none

/-- Semantics of `strcat(dst, src)`: the string of `src` and its NUL are written at
the NUL of `dst`; undefined when a NUL is missing or `dst` is too small. -/
def strcat (dst src : List Nat) : Option (List Nat) :=
  if 0 ∈ dst ∧ 0 ∈ src ∧ (cstr dst).length + (cstr src).length + 1 ≤ dst.length then
    some (cstr dst ++ cstr src ++ 0 :: dst.drop ((cstr dst).length + (cstr src).length + 1))
  else none

/-- Comparison of two strings given by their characters: the difference of the
first pair of bytes that differ, the end of a string counting as NUL. -/
def strcmpChars : List Nat → List Nat → Int
  | [], [] => 0
  | [], b :: _ => - (b : Int)
  | a :: _, [] => (a : Int)
  | a :: as, b :: bs => if a = b then strcmpChars as bs else (a : Int) - (b : Int)

/-- Semantics of `strcmp(a, b)`; undefined when one of the arrays holds no NUL. -/
def strcmp (a b : List Nat) : Option Int :=
  if 0 ∈ a ∧ 0 ∈ b then some (strcmpChars (cstr a) (cstr b)) else none

/-- The assignment `a[i] = v`; undefined when `i` is outside the array. -/
def store (a : List Nat) (i v : Nat) : Option (List Nat) :=
  if i < a.length then some (a.set i v) else none

/-- The difference `a - b` of two `size_t` values (both below `2 ^ 32`), which wraps
around by `2 ^ 32` when `b` exceeds `a`. -/
def subSizeT (a b : Nat) : Nat := if b ≤ a then a - b else a + 2 ^ 32 - b

/-- The string a callee reads through a `const char *` argument; undefined when
the array holds no NUL. -/
def readString (a : List Nat) : Option (List Nat) :=
  if 0 ∈ a then some (cstr a) else none

/-! ## Shell state -/

/-- A call into the filesystem library: `f_opendir` and `f_open` with the path string
they were given, `f_read` with the number of bytes requested. -/
inductive FsCall where
  | opendir (path : List Nat)
  | open (path : List Nat)
  | read (btr : Nat)
  deriving DecidableEq, Repr

/-- The globals of `main.c` used by the shell commands, with the console output
and the filesystem calls made so far. -/
structure Shell where
  g_pcCwdBuf : List Nat
  g_pcTmpBuf : List Nat
  console : List Nat
  fsCalls : List FsCall
  deriving DecidableEq, Repr

/-- State at start-up: `g_pcCwdBuf` is initialised with the string "/" (the rest of
the array is zero), `g_pcTmpBuf` is zero-initialised. -/
def Shell.init : Shell :=
  { g_pcCwdBuf := 47 :: List.replicate 79 0
    g_pcTmpBuf := List.replicate 80 0
    console := []
    fsCalls := [] }

/-- The message printed when a path does not fit. -/
def msgTooLong : List Nat := bytes "Resulting path name is too long\r\n"

/-! ## `Cmd_cd` -/

/-- The loop `while ((g_pcTmpBuf[ui8Idx] != '/') && (ui8Idx > 1)) ui8Idx--;` of
`Cmd_cd`, started at `ui8Idx`; the result is the index at which the loop stops. -/
def scanBack (tmp : List Nat) : Nat → Option Nat
  | 0 => (tmp[0]?).map (fun _ => 0)
  | i + 1 =>
    match tmp[i + 1]? with
    | none => none
    | some c => if c ≠ 47 ∧ i + 1 > 1 then scanBack tmp i else some (i + 1)

/-- Lines 509-594 of `Cmd_cd`: construction of the candidate path in `g_pcTmpBuf`
from `argv[1]`. The flag is `true` when the function has printed
"Resulting path name is too long" and returned 0. `ui8Idx` is a `uint_fast8_t`,
a 32-bit unsigned integer on this target, so it holds `strlen(g_pcTmpBuf) - 1`
as computed in `size_t`. -/
def Cmd_cd_candidate (s : Shell) (argv1 : List Nat) : Option (Bool × Shell) := do
  let tmp ← strcpy s.g_pcTmpBuf s.g_pcCwdBuf
  let s := { s with g_pcTmpBuf := tmp }
  let c ← argv1[0]?
  if c = 47 then
    let n ← strlen argv1
    if n + 1 > PATH_BUF_SIZE then
      pure (true, { s with console := s.console ++ msgTooLong })
    else
      let tmp ← strncpy s.g_pcTmpBuf argv1 PATH_BUF_SIZE
      pure (false, { s with g_pcTmpBuf := tmp })
  else
    let d ← strcmp argv1 [46, 46, 0]
    if d = 0 then
      let n ← strlen s.g_pcTmpBuf
      let ui8Idx ← scanBack s.g_pcTmpBuf (subSizeT n 1)
      let tmp ← store s.g_pcTmpBuf ui8Idx 0
      pure (false, { s with g_pcTmpBuf := tmp })
    else
      let n ← strlen s.g_pcTmpBuf
      let m ← strlen argv1
      if n + m + 1 + 1 > PATH_BUF_SIZE then
        pure (true, { s with console := s.console ++ msgTooLong })
      else
        let d ← strcmp s.g_pcTmpBuf [47, 0]
        let tmp ← if d ≠ 0 then strcat s.g_pcTmpBuf [47, 0] else pure s.g_pcTmpBuf
        let tmp ← strcat tmp argv1
        pure (false, { s with g_pcTmpBuf := tmp })

/-- The command `cd`: `argv1` is the array `argv[1]` points to, `fr` the result
code of `f_opendir` should it be called. The result is the returned `int` and
the state after the call. -/
def Cmd_cd (s : Shell) (argv1 : List Nat) (fr : Nat) : Option (Int × Shell) := do
  let (returned, s) ← Cmd_cd_candidate s argv1
  if returned then
    pure (0, s)
  else
    let path ← readString s.g_pcTmpBuf
    let s := { s with fsCalls := s.fsCalls ++ [FsCall.opendir path] }
    if fr ≠ FR_OK then
      pure ((fr : Int), { s with console := s.console ++ bytes "cd: " ++ path ++ bytes "\r\n" })
    else
      let cwd ← strncpy s.g_pcCwdBuf s.g_pcTmpBuf PATH_BUF_SIZE
      pure (0, { s with g_pcCwdBuf := cwd })

/-! ## `Cmd_cat` -/

/-- Lines 663-683 of `Cmd_cat`: the length check and the construction of the file
path in `g_pcTmpBuf`. The flag is `true` when the function has printed
"Resulting path name is too long" and returned 0. -/
def Cmd_cat_path (s : Shell) (argv1 : List Nat) : Option (Bool × Shell) := do
  let n ← strlen s.g_pcCwdBuf
  let m ← strlen argv1
  if n + m + 1 + 1 > PATH_BUF_SIZE then
    pure (true, { s with console := s.console ++ msgTooLong })
  else
    let tmp ← strcpy s.g_pcTmpBuf s.g_pcCwdBuf
    let d ← strcmp [47, 0] s.g_pcCwdBuf
    let tmp ← if d ≠ 0 then strcat tmp [47, 0] else pure tmp
    let tmp ← strcat tmp argv1
    pure (false, { s with g_pcTmpBuf := tmp })

/-- The `do ... while (ui32BytesRead == sizeof(g_pcTmpBuf) - 1)` loop of `Cmd_cat`.
The list gives the outcomes of the successive `f_read` calls, each a result code
and the bytes the call delivers; `f_read` stores at most the requested 79 of
them. The loop has no defined result when the list ends before the loop does. -/
def Cmd_cat_loop (s : Shell) : List (Nat × List Nat) → Option (Int × Shell)
  | [] => none
  | (fr, data) :: rest =>
    let got := data.take (PATH_BUF_SIZE - 1)
    let ui32BytesRead := got.length
    let s := { s with g_pcTmpBuf := got ++ s.g_pcTmpBuf.drop ui32BytesRead
                      fsCalls := s.fsCalls ++ [FsCall.read (PATH_BUF_SIZE - 1)] }
    if fr ≠ FR_OK then
      some ((fr : Int), { s with console := s.console ++ bytes "\r\n" })
    else
      match store s.g_pcTmpBuf ui32BytesRead 0 with
      | none => none
      | some tmp =>
        match readString tmp with
        | none => none
        | some chunk =>
          let s := { s with g_pcTmpBuf := tmp, console := s.console ++ chunk }
          if ui32BytesRead = PATH_BUF_SIZE - 1 then Cmd_cat_loop s rest
          else some (0, { s with console := s.console ++ bytes "\r\n" })

/-- The command `cat`: `argv1` is the array `argv[1]` points to, `fo` the result
code of `f_open` should it be called, `reads` the outcomes of the `f_read` calls. -/
def Cmd_cat (s : Shell) (argv1 : List Nat) (fo : Nat) (reads : List (Nat × List Nat)) :
    Option (Int × Shell) := do
  let (returned, s) ← Cmd_cat_path s argv1
  if returned then
    pure (0, s)
  else
    let path ← readString s.g_pcTmpBuf
    let s := { s with fsCalls := s.fsCalls ++ [FsCall.open path] }
    if fo ≠ FR_OK then
      pure ((fo : Int), s)
    else
      Cmd_cat_loop { s with console := s.console ++ bytes "\r\n" } reads

/-- A sequence of `cd` commands, each given by its argument and the result code of
its `f_opendir` call. -/
def runCd (s : Shell) : List (List Nat × Nat) → Option Shell
  | [] => some s
  | (argv1, fr) :: rest =>
    match Cmd_cd s argv1 fr with
    | none => none
    | some (_, s) => runCd s rest

/-! ## The line editor `EusciA0_ISR` -/

/-- The state of the receive interrupt handler: its two `static` locals, the
command buffer, the ready flag, and the bytes sent to the UART so far. -/
structure LineEditor where
  ui32Count : Nat
  bLastWasCR : Int
  g_pcCmdBuf : List Nat
  gucCommandReady : Nat
  uart : List Nat
  deriving DecidableEq, Repr

/-- State at start-up: all of it zero-initialised, nothing sent. -/
def LineEditor.init : LineEditor :=
  { ui32Count := 0
    bLastWasCR := 0
    g_pcCmdBuf := List.replicate 64 0
    gucCommandReady := 0
    uart := [] }

/-- One run of the handler. `UCA0RXBUF` is the value read from the receive
register, which holds the received character in its low byte. The `char`
stored in the buffer and the byte sent back are the low byte of `receiveByte`.
The statement `if ((receiveByte == 10) && bLastWasCR)` has an empty body, as has
`if (receiveByte == 13)` inside the terminator branch. -/
def EusciA0_ISR (s : LineEditor) (UCA0RXBUF : Nat) : Option LineEditor :=
  let receiveByte := UCA0RXBUF
  let s :=
    if receiveByte = 8 then
      if s.ui32Count ≠ 0 then
        { s with uart := s.uart ++ [8], ui32Count := s.ui32Count - 1 }
      else s
    else s
  if receiveByte = 13 ∨ receiveByte = 10 ∨ receiveByte = 27 then
    some { s with ui32Count := 0, gucCommandReady := 1 }
  else if s.ui32Count < CMD_BUF_SIZE then
    match store s.g_pcCmdBuf s.ui32Count (receiveByte % 256) with
    | none => none
    | some buf =>
      some { s with g_pcCmdBuf := buf
                    ui32Count := s.ui32Count + 1
                    uart := s.uart ++ [receiveByte % 256] }
  else some s

/-- The handler run once for each byte of a received sequence. -/
def runISR (s : LineEditor) : List Nat → Option LineEditor
  | [] => some s
  | b :: rest =>
    match EusciA0_ISR s b with
    | none => none
    | some s => runISR s rest

/-! ## `f_read` on a file -/

/-- Modelled from the spec: `f_read` belongs to the FatFs library, which is not part of
the sources. Each call returns `FR_OK` and the next `min(79, remaining)` bytes of
the file, and the file pointer moves past them. `remaining` is the part of the file
not read yet, the number is that of the calls described. -/
def fileReads : List Nat → Nat → List (Nat × List Nat)
  | _, 0 => []
  | remaining, n + 1 => (FR_OK, remaining.take 79) :: fileReads (remaining.drop 79) n

/-! ## `StringFromFResult` -/

/-- Modelled from the spec: the numeric values of the result codes. `ff.h` is not part
of the sources; `FRESULT` is an enumeration that starts at `FR_OK = 0` and counts
up in the order in which this table lists its enumerators. The entries, their
order and their strings are those of `g_psFResultStrings` in `main.c`, where
`FRESULT_ENTRY(f)` expands to the pair of `f` and its spelling `#f`. -/
def g_psFResultStrings : List (Int × String) :=
  [ (0, "FR_OK"),
    (1, "FR_DISK_ERR"),
    (2, "FR_INT_ERR"),
    (3, "FR_NOT_READY"),
    (4, "FR_NO_FILE"),
    (5, "FR_NO_PATH"),
    (6, "FR_INVALID_NAME"),
    (7, "FR_DENIED"),
    (8, "FR_EXIST"),
    (9, "FR_INVALID_OBJECT"),
    (10, "FR_WRITE_PROTECTED"),
    (11, "FR_INVALID_DRIVE"),
    (12, "FR_NOT_ENABLED"),
    (13, "FR_NO_FILESYSTEM"),
    (14, "FR_MKFS_ABORTED"),
    (15, "FR_TIMEOUT"),
    (16, "FR_LOCKED"),
    (17, "FR_NOT_ENOUGH_CORE"),
    (18, "FR_TOO_MANY_OPEN_FILES"),
    (19, "FR_INVALID_PARAMETER") ]

/-- The search loop of `StringFromFResult` over the entries not yet visited: the
string of the first entry whose code equals `iFResult`, and "UNKNOWN ERROR CODE"
when the entries run out. -/
def StringFromFResult_loop : List (Int × String) → Int → String
  | [], _ => "UNKNOWN ERROR CODE"
  | (code, pcResultStr) :: rest, iFResult =>
    if code = iFResult then pcResultStr else StringFromFResult_loop rest iFResult

/-- The function `StringFromFResult`: the loop run over the whole table. -/
def StringFromFResult (iFResult : Int) : String :=
  StringFromFResult_loop g_psFResultStrings iFResult

/-! ## The body of the main loop -/

/-- Conversion of an `int` to `int8_t`. -/
def toInt8 (x : Int) : Int := (x + 128) % 256 - 128

/-- One pass of the `while (1)` loop of `main`. `CMDLINE_BAD_CMD` and
`CMDLINE_TOO_MANY_ARGS` are the two constants of `utils/cmdline.h`, which is not
part of the sources. The call `CmdLineProcess(g_pcCmdBuf)` is not modelled: it
reads the string in the buffer (undefined when there is none), `status` is the
`int` it returns and `out` the bytes printed while it runs. The handler does
not run between the statements of the pass. -/
def main_loop (CMDLINE_BAD_CMD CMDLINE_TOO_MANY_ARGS : Int) (s : LineEditor)
    (status : Int) (out : List Nat) : Option LineEditor :=
  if s.gucCommandReady ≠ 0 then
    match readString s.g_pcCmdBuf with
    | none => none
    | some _ =>
      let lucNStatus := toInt8 status
      let s := { s with uart := s.uart ++ out }
      let s := { s with g_pcCmdBuf := List.replicate CMD_BUF_SIZE 0 }
      let s :=
        if lucNStatus = CMDLINE_BAD_CMD then
          { s with uart := s.uart ++ bytes "Bad or no command!\r\n" }
        else if lucNStatus = CMDLINE_TOO_MANY_ARGS then
          { s with uart := s.uart ++ bytes "Too many arguments for command processor!\r\n" }
        else if lucNStatus ≠ 0 then
          { s with uart := s.uart ++ bytes "Command returned error code " ++
              bytes (StringFromFResult lucNStatus) ++ bytes "\r\n" }
        else s
      some { s with uart := s.uart ++ bytes ">", gucCommandReady := 0 }
  else some s

/-! ## The command table -/

/-- The five command functions a table entry can point to. -/
inductive Handler where
  | Cmd_help
  | Cmd_ls
  | Cmd_cd
  | Cmd_pwd
  | Cmd_cat
  deriving DecidableEq, Repr

/-- Modelled from the spec: the entry type is declared in `utils/cmdline.h`, which is
not part of the sources. An entry is a triple of command name, handler and help
text. -/
structure tCmdLineEntry where
  pcCmd : List Nat
  pfnCmd : Handler
  pcHelp : String
  deriving DecidableEq, Repr

/-- The table `g_psCmdTable` of `main.c`; the all-zero entry that ends the array is
the end of the list. -/
def g_psCmdTable : List tCmdLineEntry :=
  [ { pcCmd := bytes "help", pfnCmd := Handler.Cmd_help, pcHelp := "Display list of commands" },
    { pcCmd := bytes "h", pfnCmd := Handler.Cmd_help, pcHelp := "alias for help" },
    { pcCmd := bytes "?", pfnCmd := Handler.Cmd_help, pcHelp := "alias for help" },
    { pcCmd := bytes "ls", pfnCmd := Handler.Cmd_ls, pcHelp := "Display list of files" },
    { pcCmd := bytes "chdir", pfnCmd := Handler.Cmd_cd, pcHelp := "Change directory" },
    { pcCmd := bytes "cd", pfnCmd := Handler.Cmd_cd, pcHelp := "alias for chdir" },
    { pcCmd := bytes "pwd", pfnCmd := Handler.Cmd_pwd,
      pcHelp := "Show current working directory" },
    { pcCmd := bytes "cat", pfnCmd := Handler.Cmd_cat,
      pcHelp := "Show contents of a text file" } ]

/-- Modelled from the spec: the lookup is done by `CmdLineProcess` in `utils/cmdline.c`,
which is not part of the sources. The first token is compared with the command
names by exact string equality, in table order up to the end of the table; the
handler of the first match is selected, and none (the result `CMDLINE_BAD_CMD`)
when no name matches. -/
def lookupCommand : List tCmdLineEntry → List Nat → Option Handler
  | [], _ => none
  | entry :: rest, token =>
    if token = entry.pcCmd then some entry.pfnCmd else lookupCommand rest token

/-! ## Date and time in `Cmd_ls` -/

/-- The five date and time arguments of the `printf` of a directory entry in `Cmd_ls`,
in the order year, month, day, hour, minute. `fdate` and `ftime` are the 16-bit
fields of `g_sFileInfo`; the operands are promoted to `int`, so nothing wraps. -/
def Cmd_ls_datetime (fdate ftime : Nat) : Nat × Nat × Nat × Nat × Nat :=
  ((fdate >>> 9) + 1980, (fdate >>> 5) &&& 15, fdate &&& 31, ftime >>> 11,
    (ftime >>> 5) &&& 63)

/-- The date word as the specification packs it:
`((year - 1980) << 9) | (month << 5) | day`. -/
def packDate (year month day : Nat) : Nat :=
  ((year - 1980) <<< 9) ||| (month <<< 5) ||| day

/-- The time word as the specification packs it:
`(hour << 11) | (minute << 5) | seconds_field`. -/
def packTime (hour minute seconds_field : Nat) : Nat :=
  (hour <<< 11) ||| (minute <<< 5) ||| seconds_field

/-! ## Facts about C strings -/

theorem cstr_nil : cstr [] = [] := rfl

theorem cstr_cons_zero (r : List Nat) : cstr (0 :: r) = [] := by simp [cstr]

theorem cstr_cons_ne (c : Nat) (r : List Nat) (h : c ≠ 0) : cstr (c :: r) = c :: cstr r := by
  simp [cstr, List.takeWhile_cons, h]

theorem cstr_not_mem (a : List Nat) : 0 ∉ cstr a := by
  intro h
  have := List.mem_takeWhile_imp h
  simp at this

theorem cstr_append_zero (p r : List Nat) (h : 0 ∉ p) : cstr (p ++ 0 :: r) = p := by
  induction p with
  | nil => simp [cstr]
  | cons c t ih =>
    have hc : c ≠ 0 := fun e => h (by simp [e])
    have ht : 0 ∉ t := fun e => h (by simp [e])
    rw [List.cons_append, cstr_cons_ne _ _ hc, ih ht]

theorem cstr_of_not_mem (a : List Nat) (h : 0 ∉ a) : cstr a = a := by
  induction a with
  | nil => rfl
  | cons c t ih =>
    have hc : c ≠ 0 := fun e => h (by simp [e])
    have ht : 0 ∉ t := fun e => h (by simp [e])
    rw [cstr_cons_ne _ _ hc, ih ht]

theorem cstr_split (a : List Nat) (h : 0 ∈ a) :
    a = cstr a ++ 0 :: a.drop ((cstr a).length + 1) := by
  induction a with
  | nil => simp at h
  | cons c t ih =>
    by_cases hc : c = 0
    · subst hc; simp [cstr_cons_zero]
    · have ht : 0 ∈ t := by
        rcases List.mem_cons.mp h with e | e
        · exact absurd e.symm hc
        · exact e
      rw [cstr_cons_ne _ _ hc]
      simp only [List.length_cons, List.cons_append, List.drop_succ_cons]
      exact congrArg _ (ih ht)

theorem cstr_length_lt (a : List Nat) (h : 0 ∈ a) : (cstr a).length < a.length := by
  have e := congrArg List.length (cstr_split a h)
  simp only [List.length_append, List.length_cons] at e
  omega

theorem cstr_length_le (a : List Nat) : (cstr a).length ≤ a.length :=
  (List.takeWhile_prefix _).length_le

theorem mem_append_zero (p r : List Nat) : 0 ∈ p ++ 0 :: r := by simp

theorem cstr_take (a : List Nat) (n : Nat) (h : (cstr a).length < n) :
    cstr (a.take n) = cstr a ∧ (0 ∈ a → 0 ∈ a.take n) := by
  induction a generalizing n with
  | nil => simp [cstr]
  | cons c t ih =>
    cases n with
    | zero => omega
    | succ m =>
      by_cases hc : c = 0
      · subst hc; simp [cstr_cons_zero]
      · rw [cstr_cons_ne _ _ hc] at h
        simp only [List.length_cons] at h
        have := ih m (by omega)
        rw [List.take_succ_cons, cstr_cons_ne _ _ hc, cstr_cons_ne _ _ hc, this.1]
        refine ⟨rfl, fun h0 => ?_⟩
        rcases List.mem_cons.mp h0 with e | e
        · exact absurd e.symm hc
        · exact List.mem_cons_of_mem _ (this.2 e)

theorem cstr_getElem (a : List Nat) (i : Nat) (h : i < (cstr a).length) :
    a[i]? = (cstr a)[i]? := by
  obtain ⟨r, hr⟩ := List.takeWhile_prefix (l := a) (fun c => c != 0)
  have e : a = cstr a ++ r := hr.symm
  conv_lhs => rw [e]
  exact List.getElem?_append_left h

theorem cstr_set_zero (a : List Nat) (j : Nat) (h0 : 0 ∈ a) (hj : j ≤ (cstr a).length) :
    cstr (a.set j 0) = (cstr a).take j ∧ 0 ∈ a.set j 0 := by
  have hlt := cstr_length_lt a h0
  rw [List.set_eq_take_append_cons_drop, if_pos (by omega)]
  have e : a.take j = (cstr a).take j := by
    obtain ⟨r, hr⟩ := List.takeWhile_prefix (l := a) (fun c => c != 0)
    have e : a = cstr a ++ r := hr.symm
    conv_lhs => rw [e]
    rw [List.take_append_of_le_length hj]
  rw [e]
  refine ⟨cstr_append_zero _ _ ?_, mem_append_zero _ _⟩
  intro hm
  exact cstr_not_mem a (List.mem_of_mem_take hm)

theorem cstr_padded (p r : List Nat) (k : Nat) (hp : 0 ∉ p) (hk : 0 < k) :
    cstr (p ++ List.replicate k 0 ++ r) = p ∧ 0 ∈ p ++ List.replicate k 0 ++ r := by
  obtain ⟨j, rfl⟩ : ∃ j, k = j + 1 := ⟨k - 1, by omega⟩
  rw [List.replicate_succ, List.append_assoc, List.cons_append]
  exact ⟨cstr_append_zero _ _ hp, mem_append_zero _ _⟩

theorem head_of_mem_zero (a : List Nat) (h : 0 ∈ a) : ∃ c r, a = c :: r := by
  cases a with
  | nil => simp at h
  | cons c r => exact ⟨c, r, rfl⟩

theorem strcmpChars_eq_zero (a b : List Nat) (ha : 0 ∉ a) (hb : 0 ∉ b) :
    strcmpChars a b = 0 ↔ a = b := by
  induction a generalizing b with
  | nil =>
    cases b with
    | nil => simp [strcmpChars]
    | cons y ys =>
      have hy : y ≠ 0 := fun e => hb (by simp [e])
      simp [strcmpChars, hy]
  | cons x xs ih =>
    have hx : x ≠ 0 := fun e => ha (by simp [e])
    have hxs : 0 ∉ xs := fun e => ha (by simp [e])
    cases b with
    | nil => simp [strcmpChars, hx]
    | cons y ys =>
      have hys : 0 ∉ ys := fun e => hb (by simp [e])
      by_cases e : x = y
      · subst e
        simp [strcmpChars, ih ys hxs hys]
      · simp only [strcmpChars, if_neg e]
        constructor
        · intro h
          exact absurd (by omega : x = y) e
        · intro h
          exact absurd (List.cons.inj h).1 e

/-! ## Facts about the `<string.h>` functions -/

theorem strlen_eq (a : List Nat) (h : 0 ∈ a) : strlen a = some (cstr a).length := by
  simp [strlen, h]

theorem readString_eq (a : List Nat) (h : 0 ∈ a) : readString a = some (cstr a) := by
  simp [readString, h]

theorem strcmp_eq (a b : List Nat) (ha : 0 ∈ a) (hb : 0 ∈ b) :
    ∃ d, strcmp a b = some d ∧ (d = 0 ↔ cstr a = cstr b) :=
  ⟨_, by simp [strcmp, ha, hb], strcmpChars_eq_zero _ _ (cstr_not_mem a) (cstr_not_mem b)⟩

theorem strcpy_eq (dst src : List Nat) (h0 : 0 ∈ src) (hl : (cstr src).length < dst.length) :
    ∃ t, strcpy dst src = some t ∧ cstr t = cstr src ∧ 0 ∈ t ∧ t.length = dst.length := by
  refine ⟨_, by simp only [strcpy]; rw [if_pos ⟨h0, hl⟩], cstr_append_zero _ _ (cstr_not_mem _),
    mem_append_zero _ _, ?_⟩
  simp only [List.length_append, List.length_cons, List.length_drop]
  omega

theorem strncpy_eq (dst src : List Nat) (n : Nat) (hn : n ≤ dst.length) (h0 : 0 ∈ src)
    (hl : (cstr src).length < n) :
    strncpy dst src n =
      some (cstr src ++ List.replicate (n - (cstr src).length) 0 ++ dst.drop n) := by
  have ht := cstr_take src n hl
  simp only [strncpy]
  rw [if_pos ⟨hn, Or.inl (ht.2 h0)⟩, ht.1]

theorem strcat_eq (dst src : List Nat) (hd : 0 ∈ dst) (hs : 0 ∈ src)
    (hl : (cstr dst).length + (cstr src).length < dst.length) :
    ∃ t, strcat dst src = some t ∧ cstr t = cstr dst ++ cstr src ∧ 0 ∈ t ∧
      t.length = dst.length := by
  have hn : 0 ∉ cstr dst ++ cstr src := by
    simp [cstr_not_mem]
  refine ⟨_, by simp only [strcat]; rw [if_pos ⟨hd, hs, hl⟩], cstr_append_zero _ _ hn,
    mem_append_zero _ _, ?_⟩
  simp only [List.length_append, List.length_cons, List.length_drop]
  omega

theorem subSizeT_one (n : Nat) (h1 : 1 ≤ n) : subSizeT n 1 = n - 1 := by
  unfold subSizeT
  rw [if_pos h1]

/-! ## Facts about the line editor -/

theorem set_take_succ (buf : List Nat) (c b : Nat) (h : c < buf.length) :
    (buf.set c b).take (c + 1) = buf.take c ++ [b] := by
  rw [List.set_eq_take_append_cons_drop, if_pos h]
  have : (List.take c buf).length = c := by simp; omega
  rw [List.take_append_eq_append_take]
  simp [this, List.take_of_length_le]

theorem isr_step (s : LineEditor) (b : Nat) (hlen : s.g_pcCmdBuf.length = 64) :
    ∃ s1, EusciA0_ISR s b = some s1 ∧ s1.g_pcCmdBuf.length = 64 ∧
      s1.bLastWasCR = s.bLastWasCR ∧ (s.ui32Count ≤ 64 → s1.ui32Count ≤ 64) := by
  obtain ⟨c, l, buf, r, u⟩ := s
  simp only at hlen
  unfold EusciA0_ISR store CMD_BUF_SIZE
  by_cases h8 : b = 8
  · subst h8
    by_cases hc : c = 0
    · subst hc
      simp [hlen]
    · by_cases h : c - 1 < 64
      · simp [hc, h, hlen]
      · simp [hc, h, hlen]
        omega
  · by_cases ht : b = 13 ∨ b = 10 ∨ b = 27
    · simp [h8, ht, hlen]
    · by_cases hc : c < 64
      · simp [h8, ht, hc, hlen]; omega
      · simp [h8, ht, hc, hlen]

theorem isr_run (input : List Nat) : ∀ (s : LineEditor), s.g_pcCmdBuf.length = 64 →
    s.ui32Count ≤ 64 →
    ∃ s1, runISR s input = some s1 ∧ s1.g_pcCmdBuf.length = 64 ∧
      s1.bLastWasCR = s.bLastWasCR ∧ s1.ui32Count ≤ 64 := by
  induction input with
  | nil => intro s h1 h2; exact ⟨s, rfl, h1, rfl, h2⟩
  | cons b rest ih =>
    intro s h1 h2
    obtain ⟨s1, e1, l1, c1, k1⟩ := isr_step s b h1
    obtain ⟨s2, e2, l2, c2, k2⟩ := ih s1 l1 (k1 h2)
    exact ⟨s2, by simp [runISR, e1, e2], l2, by rw [c2, c1], k2⟩

theorem runISR_append (xs ys : List Nat) : ∀ (s : LineEditor),
    runISR s (xs ++ ys) = (runISR s xs).bind (fun s1 => runISR s1 ys) := by
  induction xs with
  | nil => intro s; simp [runISR]
  | cons b rest ih =>
    intro s
    simp only [List.cons_append, runISR]
    cases EusciA0_ISR s b with
    | none => simp
    | some s1 => simp [ih]

/-- Storing a run of bytes none of which is a backspace or a terminator. -/
theorem isr_run_plain (input : List Nat) : ∀ (s : LineEditor),
    s.ui32Count + input.length ≤ s.g_pcCmdBuf.length → s.g_pcCmdBuf.length = 64 →
    (∀ b ∈ input, b < 256 ∧ b ≠ 8 ∧ b ≠ 13 ∧ b ≠ 10 ∧ b ≠ 27) →
    runISR s input = some { s with
      g_pcCmdBuf := s.g_pcCmdBuf.take s.ui32Count ++ input ++
        s.g_pcCmdBuf.drop (s.ui32Count + input.length)
      ui32Count := s.ui32Count + input.length
      uart := s.uart ++ input } := by
  induction input with
  | nil => intro s _ _ _; simp [runISR]
  | cons b rest ih =>
    intro s h1 h2 hp
    obtain ⟨c, l, buf, r, u⟩ := s
    simp only [List.length_cons] at h1 h2
    have hb := hp b (List.mem_cons_self _ _)
    have hc : c < 64 := by omega
    have hmod : b % 256 = b := Nat.mod_eq_of_lt hb.1
    have e : EusciA0_ISR ⟨c, l, buf, r, u⟩ b = some ⟨c + 1, l, buf.set c b, r, u ++ [b]⟩ := by
      simp [EusciA0_ISR, store, CMD_BUF_SIZE, hb, hc, h2, hmod]
    rw [runISR, e]
    simp only
    rw [ih _ (by simp; omega) (by simp [h2]) (fun x hx => hp x (List.mem_cons_of_mem _ hx))]
    simp only [List.length_cons, Option.some.injEq, LineEditor.mk.injEq, true_and]
    refine ⟨by omega, ?_, by simp⟩
    have hcl : c < buf.length := by omega
    rw [set_take_succ _ _ _ hcl, List.drop_set_of_lt _ _ (by omega)]
    have : c + 1 + rest.length = c + (rest.length + 1) := by omega
    rw [this]
    simp

/-! ## Facts about `Cmd_cd` -/

theorem scanBack_le (tmp : List Nat) (i : Nat) (h : i < tmp.length) :
    ∃ j, scanBack tmp i = some j ∧ j ≤ i := by
  induction i with
  | zero => exact ⟨0, by simp [scanBack, List.getElem?_eq_getElem h], le_refl _⟩
  | succ i ih =>
    obtain ⟨j, e, hj⟩ := ih (by omega)
    simp only [scanBack, List.getElem?_eq_getElem h]
    by_cases hc : tmp[i + 1] ≠ 47 ∧ i + 1 > 1
    · rw [if_pos hc]; exact ⟨j, e, by omega⟩
    · rw [if_neg hc]; exact ⟨i + 1, rfl, le_refl _⟩

theorem scanBack_stop (tmp : List Nat) (j c : Nat) (h : tmp[j]? = some c)
    (hs : c = 47 ∨ j ≤ 1) : scanBack tmp j = some j := by
  cases j with
  | zero => simp [scanBack, h]
  | succ i =>
    simp only [scanBack, h]
    rw [if_neg]
    omega

theorem scanBack_run (tmp : List Nat) (j : Nat) (hj : 1 ≤ j) (k : Nat) :
    (∀ i, j < i → i ≤ j + k → ∃ c, tmp[i]? = some c ∧ c ≠ 47) →
    scanBack tmp (j + k) = scanBack tmp j := by
  induction k with
  | zero => intro _; rfl
  | succ k ih =>
    intro h
    obtain ⟨c, hc, hne⟩ := h (j + (k + 1)) (by omega) (le_refl _)
    have e : j + (k + 1) = (j + k) + 1 := by omega
    rw [e] at hc ⊢
    simp only [scanBack, hc]
    rw [if_pos ⟨hne, by omega⟩]
    exact ih (fun i h1 h2 => h i h1 (by omega))

/-- The index at which the backward scan of "P/S" stops. -/
theorem scanBack_segment (t0 P S : List Nat)
    (hform : cstr t0 = P ++ 47 :: S) (hS : S ≠ []) (hS47 : 47 ∉ S) :
    scanBack t0 ((cstr t0).length - 1) = some (if P = [] then 1 else P.length) := by
  have hSpos : 0 < S.length := List.length_pos.mpr hS
  have hlen : (cstr t0).length = P.length + 1 + S.length := by
    rw [hform]; simp only [List.length_append, List.length_cons]; omega
  have hget : ∀ i, i < (cstr t0).length → t0[i]? = (P ++ 47 :: S)[i]? := by
    intro i hi; rw [cstr_getElem t0 i hi, hform]
  have hseg : ∀ i, P.length < i → i ≤ P.length + S.length →
      ∃ c, t0[i]? = some c ∧ c ≠ 47 := by
    intro i h1 h2
    rw [hget i (by omega), List.getElem?_append_right (by omega)]
    obtain ⟨k, rfl⟩ : ∃ k, i = P.length + (k + 1) := ⟨i - P.length - 1, by omega⟩
    have hk : k < S.length := by omega
    have e : P.length + (k + 1) - P.length = k + 1 := by omega
    rw [e, List.getElem?_cons_succ, List.getElem?_eq_getElem hk]
    refine ⟨S[k], rfl, fun e => hS47 ?_⟩
    rw [← e]; exact List.getElem_mem hk
  by_cases hP : P = []
  · subst hP
    simp only [List.length_nil] at hlen hseg
    rw [if_pos rfl]
    have e : (cstr t0).length - 1 = 1 + (S.length - 1) := by omega
    rw [e, scanBack_run t0 1 (le_refl _) (S.length - 1)
      (fun i h1 h2 => hseg i (by omega) (by omega))]
    obtain ⟨c, hc, _⟩ := hseg 1 (by omega) (by omega)
    exact scanBack_stop t0 1 c hc (Or.inr (le_refl _))
  · rw [if_neg hP]
    have hPpos : 0 < P.length := List.length_pos.mpr hP
    have e : (cstr t0).length - 1 = P.length + S.length := by omega
    rw [e, scanBack_run t0 P.length hPpos S.length (fun i h1 h2 => hseg i h1 h2)]
    refine scanBack_stop t0 P.length 47 ?_ (Or.inl rfl)
    rw [hget _ (by omega), List.getElem?_append_right (le_refl _)]
    simp

/-- Absolute argument. -/
theorem cd_candidate_abs (s : Shell) (r : List Nat)
    (hcw : s.g_pcCwdBuf.length = 80) (ht : s.g_pcTmpBuf.length = 80)
    (h0 : 0 ∈ s.g_pcCwdBuf) (ha : 0 ∈ (47 :: r)) :
    ∃ tmp, tmp.length = 80 ∧ 0 ∈ tmp ∧
      (80 < (cstr (47 :: r)).length + 1 →
        Cmd_cd_candidate s (47 :: r) =
          some (true, { s with g_pcTmpBuf := tmp, console := s.console ++ msgTooLong })) ∧
      ((cstr (47 :: r)).length + 1 ≤ 80 →
        Cmd_cd_candidate s (47 :: r) = some (false, { s with g_pcTmpBuf := tmp }) ∧
        cstr tmp = cstr (47 :: r)) := by
  obtain ⟨t0, e0, c0, m0, l0⟩ := strcpy_eq s.g_pcTmpBuf s.g_pcCwdBuf h0
    (by have := cstr_length_lt _ h0; omega)
  by_cases hl : 80 < (cstr (47 :: r)).length + 1
  · refine ⟨t0, by omega, m0, fun _ => ?_, fun h => by omega⟩
    simp [Cmd_cd_candidate, e0, strlen_eq _ ha, PATH_BUF_SIZE, hl]
  · have hn : 80 ≤ t0.length := by omega
    have e1 := strncpy_eq t0 (47 :: r) 80 hn ha (by omega)
    have hp := cstr_padded (cstr (47 :: r)) (t0.drop 80) (80 - (cstr (47 :: r)).length)
      (cstr_not_mem _) (by omega)
    refine ⟨_, ?_, hp.2, fun h => absurd h hl, fun _ => ⟨?_, hp.1⟩⟩
    · simp only [List.length_append, List.length_replicate, List.length_drop]
      omega
    · simp [Cmd_cd_candidate, e0, strlen_eq _ ha, PATH_BUF_SIZE, hl, e1]

/-- Argument "..": the candidate is cut at the index where the backward scan stops. -/
theorem cd_candidate_dotdot (s : Shell) (argv1 : List Nat)
    (hcw : s.g_pcCwdBuf.length = 80) (ht : s.g_pcTmpBuf.length = 80)
    (h0 : 0 ∈ s.g_pcCwdBuf) (ha : 0 ∈ argv1) (hd : cstr argv1 = [46, 46])
    (hne : cstr s.g_pcCwdBuf ≠ []) :
    ∃ t0 j, cstr t0 = cstr s.g_pcCwdBuf ∧ 0 ∈ t0 ∧ t0.length = 80 ∧
      scanBack t0 ((cstr s.g_pcCwdBuf).length - 1) = some j ∧
      j ≤ (cstr s.g_pcCwdBuf).length - 1 ∧
      Cmd_cd_candidate s argv1 = some (false, { s with g_pcTmpBuf := t0.set j 0 }) := by
  have hlt := cstr_length_lt _ h0
  have hpos : 0 < (cstr s.g_pcCwdBuf).length := List.length_pos.mpr hne
  obtain ⟨t0, e0, c0, m0, l0⟩ := strcpy_eq s.g_pcTmpBuf s.g_pcCwdBuf h0 (by omega)
  obtain ⟨j, ej, hj⟩ := scanBack_le t0 ((cstr s.g_pcCwdBuf).length - 1) (by omega)
  refine ⟨t0, j, c0, m0, by omega, ej, hj, ?_⟩
  obtain ⟨c, r, rfl⟩ := head_of_mem_zero argv1 ha
  have hc : c = 46 := by
    by_cases hz : c = 0
    · subst hz; simp [cstr_cons_zero] at hd
    · rw [cstr_cons_ne _ _ hz] at hd
      exact (List.cons.inj hd).1
  subst hc
  obtain ⟨d, ed, hd0⟩ := strcmp_eq (46 :: r) [46, 46, 0] ha (by simp)
  have hdz : d = 0 := hd0.mpr (by rw [hd]; rfl)
  have hidx : subSizeT (cstr s.g_pcCwdBuf).length 1 = (cstr s.g_pcCwdBuf).length - 1 :=
    subSizeT_one _ (by omega)
  have hst : store t0 j 0 = some (t0.set j 0) := by
    simp only [store]; rw [if_pos (by omega)]
  unfold Cmd_cd_candidate
  simp only [e0, Option.bind_eq_bind, Option.some_bind, List.getElem?_cons_zero]
  rw [if_neg (by decide : ¬ (46 : Nat) = 47), ed]
  simp only [Option.some_bind]
  rw [if_pos hdz, strlen_eq _ m0]
  simp only [Option.some_bind]
  rw [c0, hidx, ej]
  simp only [Option.some_bind]
  rw [hst]
  rfl

/-- Relative argument (neither absolute nor ".."). -/
theorem cd_candidate_rel (s : Shell) (argv1 : List Nat)
    (hcw : s.g_pcCwdBuf.length = 80) (ht : s.g_pcTmpBuf.length = 80)
    (h0 : 0 ∈ s.g_pcCwdBuf) (ha : 0 ∈ argv1) (hh : argv1[0]? ≠ some 47)
    (hd : cstr argv1 ≠ [46, 46]) :
    ∃ tmp, tmp.length = 80 ∧ 0 ∈ tmp ∧
      (80 < (cstr s.g_pcCwdBuf).length + (cstr argv1).length + 1 + 1 →
        Cmd_cd_candidate s argv1 =
          some (true, { s with g_pcTmpBuf := tmp, console := s.console ++ msgTooLong })) ∧
      ((cstr s.g_pcCwdBuf).length + (cstr argv1).length + 1 + 1 ≤ 80 →
        Cmd_cd_candidate s argv1 = some (false, { s with g_pcTmpBuf := tmp }) ∧
        cstr tmp = cstr s.g_pcCwdBuf ++ (if cstr s.g_pcCwdBuf = [47] then [] else [47]) ++
          cstr argv1) := by
  have hlt := cstr_length_lt _ h0
  obtain ⟨t0, e0, c0, m0, l0⟩ := strcpy_eq s.g_pcTmpBuf s.g_pcCwdBuf h0 (by omega)
  obtain ⟨c, r, rfl⟩ := head_of_mem_zero argv1 ha
  have hc : ¬ c = 47 := by
    intro e; subst e; simp at hh
  obtain ⟨d, ed, hd0⟩ := strcmp_eq (c :: r) [46, 46, 0] ha (by simp)
  have hdz : ¬ d = 0 := fun e => hd (by rw [hd0.mp e]; rfl)
  have pre : Cmd_cd_candidate s (c :: r) =
      if (cstr s.g_pcCwdBuf).length + (cstr (c :: r)).length + 1 + 1 > PATH_BUF_SIZE then
        some (true, { s with g_pcTmpBuf := t0, console := s.console ++ msgTooLong })
      else
        (strcmp t0 [47, 0]).bind fun d =>
          if d ≠ 0 then
            (strcat t0 [47, 0]).bind fun y =>
              (strcat y (c :: r)).bind fun tmp => some (false, { s with g_pcTmpBuf := tmp })
          else
            (strcat t0 (c :: r)).bind fun tmp => some (false, { s with g_pcTmpBuf := tmp }) := by
    unfold Cmd_cd_candidate
    simp only [e0, Option.bind_eq_bind, Option.some_bind, List.getElem?_cons_zero]
    rw [if_neg hc, ed]
    simp only [Option.some_bind]
    rw [if_neg hdz, strlen_eq _ m0, strlen_eq _ ha]
    simp only [Option.some_bind, c0]
    rfl
  by_cases hl : 80 < (cstr s.g_pcCwdBuf).length + (cstr (c :: r)).length + 1 + 1
  · refine ⟨t0, by omega, m0, fun _ => ?_, fun h => by omega⟩
    rw [pre, if_pos (by simpa [PATH_BUF_SIZE] using hl)]
  · obtain ⟨d1, ed1, hd1⟩ := strcmp_eq t0 [47, 0] m0 (by simp)
    have hs : cstr [47, 0] = [47] := rfl
    rw [hs, c0] at hd1
    by_cases hroot : cstr s.g_pcCwdBuf = [47]
    · have hd1z : d1 = 0 := hd1.mpr hroot
      obtain ⟨t2, e2, c2, m2, l2⟩ := strcat_eq t0 (c :: r) m0 ha (by rw [c0]; omega)
      refine ⟨t2, by omega, m2, fun h => absurd h hl, fun _ => ⟨?_, ?_⟩⟩
      · rw [pre, if_neg (by simpa [PATH_BUF_SIZE] using hl), ed1]
        simp only [Option.some_bind]
        rw [if_neg (by simp [hd1z])]
        simp only [Option.some_bind, e2]
      · rw [c2, c0, if_pos hroot, List.append_nil]
    · have hd1z : d1 ≠ 0 := fun e => hroot (hd1.mp e)
      obtain ⟨t1, e1, c1, m1, l1⟩ := strcat_eq t0 [47, 0] m0 (by simp)
        (by rw [c0, hs]; simp only [List.length_singleton]; omega)
      obtain ⟨t2, e2, c2, m2, l2⟩ := strcat_eq t1 (c :: r) m1 ha
        (by rw [c1, c0, hs]; simp only [List.length_append, List.length_singleton]; omega)
      refine ⟨t2, by omega, m2, fun h => absurd h hl, fun _ => ⟨?_, ?_⟩⟩
      · rw [pre, if_neg (by simpa [PATH_BUF_SIZE] using hl), ed1]
        simp only [Option.some_bind]
        rw [if_pos hd1z]
        simp only [e1, Option.some_bind, e2]
      · rw [c2, c1, c0, if_neg hroot, hs]

/-- The candidate phase of `Cmd_cd` is defined on every well-formed input. -/
theorem cd_candidate_total (s : Shell) (argv1 : List Nat)
    (hcw : s.g_pcCwdBuf.length = 80) (ht : s.g_pcTmpBuf.length = 80)
    (h0 : 0 ∈ s.g_pcCwdBuf) (ha : 0 ∈ argv1)
    (hdd : cstr argv1 = [46, 46] → cstr s.g_pcCwdBuf ≠ []) :
    ∃ tmp, tmp.length = 80 ∧ 0 ∈ tmp ∧
      (Cmd_cd_candidate s argv1 =
          some (true, { s with g_pcTmpBuf := tmp, console := s.console ++ msgTooLong }) ∨
        Cmd_cd_candidate s argv1 = some (false, { s with g_pcTmpBuf := tmp })) := by
  by_cases h47 : argv1[0]? = some 47
  · obtain ⟨c, r, rfl⟩ := head_of_mem_zero argv1 ha
    have hc : c = 47 := by simpa using h47
    subst hc
    obtain ⟨tmp, l, m, h1, h2⟩ := cd_candidate_abs s r hcw ht h0 ha
    by_cases hl : 80 < (cstr (47 :: r)).length + 1
    · exact ⟨tmp, l, m, Or.inl (h1 hl)⟩
    · exact ⟨tmp, l, m, Or.inr (h2 (by omega)).1⟩
  · by_cases hd : cstr argv1 = [46, 46]
    · obtain ⟨t0, j, c0, m0, l0, _, hj, e⟩ := cd_candidate_dotdot s argv1 hcw ht h0 ha hd (hdd hd)
      have hlt := cstr_length_lt _ m0
      exact ⟨_, by simp [l0], (cstr_set_zero t0 j m0 (by rw [c0]; omega)).2, Or.inr e⟩
    · obtain ⟨tmp, l, m, h1, h2⟩ := cd_candidate_rel s argv1 hcw ht h0 ha h47 hd
      by_cases hl : 80 < (cstr s.g_pcCwdBuf).length + (cstr argv1).length + 1 + 1
      · exact ⟨tmp, l, m, Or.inl (h1 hl)⟩
      · exact ⟨tmp, l, m, Or.inr (h2 (by omega)).1⟩

/-- The tail of `Cmd_cd` once a candidate has been built. -/
theorem cd_verify (s : Shell) (argv1 tmp : List Nat) (fr : Nat)
    (hc : Cmd_cd_candidate s argv1 = some (false, { s with g_pcTmpBuf := tmp }))
    (h0 : 0 ∈ tmp) (hl : tmp.length = 80) (hcw : s.g_pcCwdBuf.length = 80) :
    (fr ≠ FR_OK → Cmd_cd s argv1 fr = some ((fr : Int),
      { s with g_pcTmpBuf := tmp
               fsCalls := s.fsCalls ++ [FsCall.opendir (cstr tmp)]
               console := s.console ++ bytes "cd: " ++ cstr tmp ++ bytes "\r\n" })) ∧
    (fr = FR_OK → Cmd_cd s argv1 fr = some (0,
      { s with g_pcCwdBuf := cstr tmp ++ List.replicate (80 - (cstr tmp).length) 0 ++
                 s.g_pcCwdBuf.drop 80
               g_pcTmpBuf := tmp
               fsCalls := s.fsCalls ++ [FsCall.opendir (cstr tmp)] })) := by
  have hlt := cstr_length_lt _ h0
  have e1 := strncpy_eq s.g_pcCwdBuf tmp 80 (by omega) h0 (by omega)
  constructor
  · intro hfr
    unfold Cmd_cd
    simp only [hc, Option.bind_eq_bind, Option.some_bind, readString_eq _ h0]
    simp [hfr]
  · intro hfr
    unfold Cmd_cd
    simp only [hc, Option.bind_eq_bind, Option.some_bind, readString_eq _ h0]
    simp [hfr, PATH_BUF_SIZE, e1]

/-- The early return of `Cmd_cd`. -/
theorem cd_rejected (s s1 : Shell) (argv1 : List Nat) (fr : Nat)
    (hc : Cmd_cd_candidate s argv1 = some (true, s1)) :
    Cmd_cd s argv1 fr = some (0, s1) := by
  unfold Cmd_cd
  simp [hc]

/-! ## Facts about `Cmd_cat` -/

/-- The length check and path construction of `Cmd_cat`. -/
theorem cat_path (s : Shell) (argv1 : List Nat)
    (hcw : s.g_pcCwdBuf.length = 80) (ht : s.g_pcTmpBuf.length = 80)
    (h0 : 0 ∈ s.g_pcCwdBuf) (ha : 0 ∈ argv1) :
    (80 < (cstr s.g_pcCwdBuf).length + (cstr argv1).length + 1 + 1 →
      Cmd_cat_path s argv1 = some (true, { s with console := s.console ++ msgTooLong })) ∧
    ((cstr s.g_pcCwdBuf).length + (cstr argv1).length + 1 + 1 ≤ 80 →
      ∃ tmp, tmp.length = 80 ∧ 0 ∈ tmp ∧
        Cmd_cat_path s argv1 = some (false, { s with g_pcTmpBuf := tmp }) ∧
        cstr tmp = cstr s.g_pcCwdBuf ++ (if cstr s.g_pcCwdBuf = [47] then [] else [47]) ++
          cstr argv1) := by
  have hlt := cstr_length_lt _ h0
  have pre : Cmd_cat_path s argv1 =
      if (cstr s.g_pcCwdBuf).length + (cstr argv1).length + 1 + 1 > PATH_BUF_SIZE then
        some (true, { s with console := s.console ++ msgTooLong })
      else
        (strcpy s.g_pcTmpBuf s.g_pcCwdBuf).bind fun t0 =>
          (strcmp [47, 0] s.g_pcCwdBuf).bind fun d =>
            if d ≠ 0 then
              (strcat t0 [47, 0]).bind fun y =>
                (strcat y argv1).bind fun tmp => some (false, { s with g_pcTmpBuf := tmp })
            else
              (strcat t0 argv1).bind fun tmp => some (false, { s with g_pcTmpBuf := tmp }) := by
    unfold Cmd_cat_path
    simp only [Option.bind_eq_bind, strlen_eq _ h0, strlen_eq _ ha, Option.some_bind]
    rfl
  constructor
  · intro hl
    rw [pre, if_pos (by simpa [PATH_BUF_SIZE] using hl)]
  · intro hl
    have hl2 : ¬ (cstr s.g_pcCwdBuf).length + (cstr argv1).length + 1 + 1 > PATH_BUF_SIZE := by
      simp only [PATH_BUF_SIZE]; omega
    obtain ⟨t0, e0, c0, m0, l0⟩ := strcpy_eq s.g_pcTmpBuf s.g_pcCwdBuf h0 (by omega)
    obtain ⟨d1, ed1, hd1⟩ := strcmp_eq [47, 0] s.g_pcCwdBuf (by simp) h0
    have hs : cstr [47, 0] = [47] := rfl
    rw [hs] at hd1
    by_cases hroot : cstr s.g_pcCwdBuf = [47]
    · have hd1z : d1 = 0 := hd1.mpr hroot.symm
      obtain ⟨t2, e2, c2, m2, l2⟩ := strcat_eq t0 argv1 m0 ha (by rw [c0]; omega)
      refine ⟨t2, by omega, m2, ?_, ?_⟩
      · rw [pre, if_neg hl2, e0]
        simp only [Option.some_bind, ed1]
        rw [if_neg (by simp [hd1z])]
        simp only [Option.some_bind, e2]
      · rw [c2, c0, if_pos hroot, List.append_nil]
    · have hd1z : d1 ≠ 0 := fun e => hroot (hd1.mp e).symm
      obtain ⟨t1, e1, c1, m1, l1⟩ := strcat_eq t0 [47, 0] m0 (by simp)
        (by rw [c0, hs]; simp only [List.length_singleton]; omega)
      obtain ⟨t2, e2, c2, m2, l2⟩ := strcat_eq t1 argv1 m1 ha
        (by rw [c1, c0, hs]; simp only [List.length_append, List.length_singleton]; omega)
      refine ⟨t2, by omega, m2, ?_, ?_⟩
      · rw [pre, if_neg hl2, e0]
        simp only [Option.some_bind, ed1]
        rw [if_pos hd1z]
        simp only [e1, Option.some_bind, e2]
      · rw [c2, c1, c0, if_neg hroot, hs]

/-- The read loop of `Cmd_cat` leaves `g_pcCwdBuf` alone and calls only `f_read`. -/
theorem cat_loop_calls (reads : List (Nat × List Nat)) : ∀ (s : Shell) (r : Int) (s2 : Shell),
    Cmd_cat_loop s reads = some (r, s2) →
    s2.g_pcCwdBuf = s.g_pcCwdBuf ∧
      ∃ k, s2.fsCalls = s.fsCalls ++ List.replicate k (FsCall.read 79) := by
  induction reads with
  | nil => intro s r s2 h; simp [Cmd_cat_loop] at h
  | cons o rest ih =>
    intro s r s2 h
    obtain ⟨fr, data⟩ := o
    simp only [Cmd_cat_loop] at h
    by_cases hfr : fr ≠ FR_OK
    · rw [if_pos hfr] at h
      have e := (Prod.mk.inj (Option.some.inj h)).2
      subst e
      exact ⟨rfl, 1, rfl⟩
    · rw [if_neg hfr] at h
      cases hst : store (List.take (PATH_BUF_SIZE - 1) data ++
          List.drop (List.take (PATH_BUF_SIZE - 1) data).length s.g_pcTmpBuf)
          (List.take (PATH_BUF_SIZE - 1) data).length 0 with
      | none => rw [hst] at h; simp at h
      | some tmp =>
        rw [hst] at h
        simp only at h
        cases hrd : readString tmp with
        | none => rw [hrd] at h; simp at h
        | some chunk =>
          rw [hrd] at h
          simp only at h
          by_cases hfull : (List.take (PATH_BUF_SIZE - 1) data).length = PATH_BUF_SIZE - 1
          · rw [if_pos hfull] at h
            obtain ⟨h1, k, h2⟩ := ih _ r s2 h
            refine ⟨h1, k + 1, ?_⟩
            rw [h2]
            simp [List.replicate_succ, PATH_BUF_SIZE]
          · rw [if_neg hfull] at h
            have e := (Prod.mk.inj (Option.some.inj h)).2
            subst e
            exact ⟨rfl, 1, rfl⟩

/-! ## Facts about the read loop of `Cmd_cat` -/

/-- Terminating a chunk in the scratch buffer. -/
theorem cat_chunk (tmp got : List Nat) (hl : tmp.length = 80) (hg : got.length ≤ 79) :
    store (got ++ tmp.drop got.length) got.length 0 =
      some (got ++ 0 :: tmp.drop (got.length + 1)) ∧
    readString (got ++ 0 :: tmp.drop (got.length + 1)) =
      some (cstr (got ++ 0 :: tmp.drop (got.length + 1))) ∧
    (got ++ 0 :: tmp.drop (got.length + 1)).length = 80 := by
  have hlt : got.length < tmp.length := by omega
  refine ⟨?_, readString_eq _ (mem_append_zero _ _), ?_⟩
  · simp only [store]
    rw [if_pos (by simp only [List.length_append, List.length_drop]; omega)]
    rw [List.set_append_right _ _ (le_refl _), Nat.sub_self, List.drop_eq_getElem_cons hlt]
    rfl
  · simp only [List.length_append, List.length_cons, List.length_drop]
    omega

/-- One iteration of the loop on a read that succeeds. -/
theorem cat_loop_ok (s : Shell) (data : List Nat) (rest : List (Nat × List Nat))
    (hl : s.g_pcTmpBuf.length = 80) :
    Cmd_cat_loop s ((FR_OK, data) :: rest) =
      if (data.take 79).length = 79 then
        Cmd_cat_loop
          { s with
            g_pcTmpBuf := data.take 79 ++ 0 :: s.g_pcTmpBuf.drop ((data.take 79).length + 1)
            fsCalls := s.fsCalls ++ [FsCall.read 79]
            console := s.console ++
              cstr (data.take 79 ++ 0 :: s.g_pcTmpBuf.drop ((data.take 79).length + 1)) }
          rest
      else
        some (0,
          { s with
            g_pcTmpBuf := data.take 79 ++ 0 :: s.g_pcTmpBuf.drop ((data.take 79).length + 1)
            fsCalls := s.fsCalls ++ [FsCall.read 79]
            console := s.console ++
              cstr (data.take 79 ++ 0 :: s.g_pcTmpBuf.drop ((data.take 79).length + 1)) ++
              bytes "\r\n" }) := by
  have hg : (data.take 79).length ≤ 79 := by simp
  obtain ⟨h1, h2, _⟩ := cat_chunk s.g_pcTmpBuf (data.take 79) hl hg
  have e79 : PATH_BUF_SIZE - 1 = 79 := rfl
  simp only [Cmd_cat_loop, e79]
  rw [if_neg (by simp), h1]
  simp only [h2]

/-- One iteration of the loop on a read that fails. -/
theorem cat_loop_err (s : Shell) (e : Nat) (data : List Nat) (rest : List (Nat × List Nat))
    (he : e ≠ FR_OK) :
    Cmd_cat_loop s ((e, data) :: rest) =
      some ((e : Int),
        { s with
          g_pcTmpBuf := data.take 79 ++ s.g_pcTmpBuf.drop (data.take 79).length
          fsCalls := s.fsCalls ++ [FsCall.read 79]
          console := s.console ++ bytes "\r\n" }) := by
  have e79 : PATH_BUF_SIZE - 1 = 79 := rfl
  simp only [Cmd_cat_loop, e79]
  rw [if_pos he]

/-- The loop on a file without NUL: all of it is printed in `L / 79 + 1` reads. -/
theorem cat_loop_file (n : Nat) : ∀ (remaining : List Nat) (s : Shell),
    0 ∉ remaining → s.g_pcTmpBuf.length = 80 → remaining.length / 79 < n →
    ∃ tmp, tmp.length = 80 ∧ 0 ∈ tmp ∧
      Cmd_cat_loop s (fileReads remaining n) = some (0,
        { s with
          g_pcTmpBuf := tmp
          fsCalls := s.fsCalls ++ List.replicate (remaining.length / 79 + 1) (FsCall.read 79)
          console := s.console ++ remaining ++ bytes "\r\n" }) := by
  induction n with
  | zero => intro _ _ _ _ h; omega
  | succ n ih =>
    intro remaining s h0 hl hn
    have htake : (remaining.take 79).take 79 = remaining.take 79 := by simp
    have hnz : 0 ∉ remaining.take 79 := fun h => h0 (List.mem_of_mem_take h)
    have hc : cstr (remaining.take 79 ++ 0 ::
        s.g_pcTmpBuf.drop ((remaining.take 79).length + 1)) = remaining.take 79 :=
      cstr_append_zero _ _ hnz
    have hlen := (cat_chunk s.g_pcTmpBuf (remaining.take 79) hl (by simp)).2.2
    rw [fileReads, cat_loop_ok s _ _ hl, htake, hc]
    by_cases hfull : (remaining.take 79).length = 79
    · rw [if_pos hfull]
      have hL : 79 ≤ remaining.length := by
        rw [List.length_take] at hfull; omega
      have hd0 : 0 ∉ remaining.drop 79 := fun h => h0 (List.mem_of_mem_drop h)
      have hdl : (remaining.drop 79).length = remaining.length - 79 := List.length_drop _ _
      obtain ⟨tmp, l, m, e⟩ := ih (remaining.drop 79)
        { s with
          g_pcTmpBuf := remaining.take 79 ++ 0 ::
            s.g_pcTmpBuf.drop ((remaining.take 79).length + 1)
          fsCalls := s.fsCalls ++ [FsCall.read 79]
          console := s.console ++ remaining.take 79 }
        hd0 hlen (by rw [hdl]; omega)
      refine ⟨tmp, l, m, ?_⟩
      rw [e]
      have hk : (remaining.drop 79).length / 79 + 1 = remaining.length / 79 := by
        rw [hdl]; omega
      have hr : remaining.length / 79 + 1 = ((remaining.drop 79).length / 79 + 1) + 1 := by
        rw [hk]
      rw [hr]
      simp only [List.replicate_succ, List.append_assoc, List.singleton_append,
        List.take_append_drop]
    · rw [if_neg hfull]
      have hL : remaining.length < 79 := by
        rw [List.length_take] at hfull; omega
      have ht : remaining.take 79 = remaining := List.take_of_length_le (by omega)
      have hk : remaining.length / 79 = 0 := by omega
      refine ⟨_, hlen, mem_append_zero _ _, ?_⟩
      rw [hk, ht]
      rfl

/-- The loop stops at the first read that fails and returns its code. -/
theorem cat_loop_stops (pre : List (Nat × List Nat)) : ∀ (s : Shell) (e : Nat)
    (data : List Nat) (rest : List (Nat × List Nat)),
    (∀ o ∈ pre, o.1 = FR_OK ∧ 79 ≤ o.2.length) → s.g_pcTmpBuf.length = 80 → e ≠ FR_OK →
    ∃ s1, Cmd_cat_loop s (pre ++ (e, data) :: rest) = some ((e : Int), s1) ∧
      s1.fsCalls = s.fsCalls ++ List.replicate (pre.length + 1) (FsCall.read 79) := by
  induction pre with
  | nil =>
    intro s e data rest _ _ he
    exact ⟨_, by rw [List.nil_append, cat_loop_err s e data rest he], rfl⟩
  | cons o pre ih =>
    intro s e data rest hpre hl he
    obtain ⟨c, d⟩ := o
    have ho := hpre (c, d) (List.mem_cons_self _ _)
    simp only at ho
    obtain ⟨hc, hd⟩ := ho
    subst hc
    have hfull : (d.take 79).length = 79 := by rw [List.length_take]; omega
    have hlen := (cat_chunk s.g_pcTmpBuf (d.take 79) hl (by simp)).2.2
    obtain ⟨s1, e1, f1⟩ := ih
      { s with
        g_pcTmpBuf := d.take 79 ++ 0 :: s.g_pcTmpBuf.drop ((d.take 79).length + 1)
        fsCalls := s.fsCalls ++ [FsCall.read 79]
        console := s.console ++
          cstr (d.take 79 ++ 0 :: s.g_pcTmpBuf.drop ((d.take 79).length + 1)) }
      e data rest (fun x hx => hpre x (List.mem_cons_of_mem _ hx)) hlen he
    refine ⟨s1, ?_, ?_⟩
    · rw [List.cons_append, cat_loop_ok s _ _ hl, if_pos hfull, e1]
    · rw [f1]
      simp only [List.length_cons, List.append_assoc, List.singleton_append]
      rw [List.replicate_succ (n := pre.length + 1)]

/-- The outcome of the `k`-th read of a file. -/
theorem fileReads_get (n : Nat) : ∀ (remaining : List Nat) (k : Nat), k < n →
    (fileReads remaining n)[k]? = some (FR_OK, (remaining.drop (79 * k)).take 79) := by
  induction n with
  | zero => intro _ k h; omega
  | succ n ih =>
    intro remaining k hk
    cases k with
    | zero => simp [fileReads]
    | succ k =>
      rw [fileReads, List.getElem?_cons_succ, ih _ k (by omega), List.drop_drop]
      have : 79 + 79 * k = 79 * (k + 1) := by ring
      rw [this]

/-! ## Facts about `StringFromFResult` -/

theorem StringFromFResult_loop_unknown (table : List (Int × String)) (c : Int)
    (h : c ∉ table.map Prod.fst) : StringFromFResult_loop table c = "UNKNOWN ERROR CODE" := by
  induction table with
  | nil => rfl
  | cons e rest ih =>
    obtain ⟨code, str⟩ := e
    simp only [List.map_cons, List.mem_cons, not_or] at h
    simp only [StringFromFResult_loop]
    rw [if_neg (fun e => h.1 e.symm)]
    exact ih h.2

/-! ## Facts about the command table -/

theorem lookupCommand_none (table : List tCmdLineEntry) (token : List Nat)
    (h : token ∉ table.map (fun e => e.pcCmd)) : lookupCommand table token = none := by
  induction table with
  | nil => rfl
  | cons e rest ih =>
    simp only [List.map_cons, List.mem_cons, not_or] at h
    simp only [lookupCommand]
    rw [if_neg h.1]
    exact ih h.2

/-! ## Facts about the packed date and time words -/

theorem or_fields (a m d : Nat) (i j : Nat) (hm : m < 2 ^ i) (hd : d < 2 ^ j) :
    ((a <<< (j + i)) ||| (m <<< j)) ||| d = a * 2 ^ (j + i) + m * 2 ^ j + d := by
  have h1 : m <<< j < 2 ^ (j + i) := by
    rw [Nat.shiftLeft_eq, Nat.pow_add, Nat.mul_comm]
    exact Nat.mul_lt_mul_of_pos_left hm (Nat.two_pow_pos j)
  have e1 : (a <<< (j + i)) ||| (m <<< j) = a * 2 ^ (j + i) + m * 2 ^ j := by
    rw [Nat.shiftLeft_eq a, Nat.mul_comm a, ← Nat.mul_add_lt_is_or h1, Nat.shiftLeft_eq]
  have e2 : a * 2 ^ (j + i) + m * 2 ^ j = 2 ^ j * (a * 2 ^ i + m) := by
    rw [Nat.pow_add]; ring
  rw [e1, e2, ← Nat.mul_add_lt_is_or hd]

theorem and_mask (x n : Nat) : x &&& (2 ^ n - 1) = x % 2 ^ n :=
  Nat.and_pow_two_sub_one_eq_mod x n

/-! ## Facts about the main loop -/

theorem toInt8_of_range (x : Int) (h1 : -128 ≤ x) (h2 : x ≤ 127) : toInt8 x = x := by
  unfold toInt8
  omega

/-! ## `Cmd_cd` between candidate and commit -/

/-- Verify-then-commit wherever the candidate is built. The current directory holds
a string, the argument holds a string that passes the length check of its case
(for ".." there is none, and the current directory string is not empty). Then
`Cmd_cd` builds a candidate, passes it to `f_opendir`, and for every result code
of that call: a code other than `FR_OK` is returned as it is with `g_pcCwdBuf`
equal to what it was, byte for byte; on `FR_OK` the return value is 0 and
`g_pcCwdBuf` holds the candidate. -/
theorem cd_verify_then_commit (s : Shell) (argv1 : List Nat)
    (hcw : s.g_pcCwdBuf.length = 80) (ht : s.g_pcTmpBuf.length = 80)
    (h0 : 0 ∈ s.g_pcCwdBuf) (ha : 0 ∈ argv1)
    (habs : argv1[0]? = some 47 → (cstr argv1).length + 1 ≤ 80)
    (hdd : cstr argv1 = [46, 46] → cstr s.g_pcCwdBuf ≠ [])
    (hrel : argv1[0]? ≠ some 47 → cstr argv1 ≠ [46, 46] →
      (cstr s.g_pcCwdBuf).length + (cstr argv1).length + 1 + 1 ≤ 80) :
    ∃ tmp, Cmd_cd_candidate s argv1 = some (false, { s with g_pcTmpBuf := tmp }) ∧
      ∀ fr, ∃ s1, s1.fsCalls = s.fsCalls ++ [FsCall.opendir (cstr tmp)] ∧
        (fr ≠ FR_OK → Cmd_cd s argv1 fr = some ((fr : Int), s1) ∧
          s1.g_pcCwdBuf = s.g_pcCwdBuf) ∧
        (fr = FR_OK → Cmd_cd s argv1 fr = some (0, s1) ∧
          cstr s1.g_pcCwdBuf = cstr tmp ∧ 0 ∈ s1.g_pcCwdBuf ∧ s1.g_pcCwdBuf.length = 80) := by
  have key : ∃ tmp, Cmd_cd_candidate s argv1 = some (false, { s with g_pcTmpBuf := tmp }) ∧
      0 ∈ tmp ∧ tmp.length = 80 := by
    by_cases h47 : argv1[0]? = some 47
    · obtain ⟨c, r, rfl⟩ := head_of_mem_zero argv1 ha
      have hc : c = 47 := by simpa using h47
      subst hc
      obtain ⟨tmp, l, m, _, h2⟩ := cd_candidate_abs s r hcw ht h0 ha
      exact ⟨tmp, (h2 (habs h47)).1, m, l⟩
    · by_cases hd : cstr argv1 = [46, 46]
      · obtain ⟨t0, j, c0, m0, l0, _, hj, e⟩ := cd_candidate_dotdot s argv1 hcw ht h0 ha hd (hdd hd)
        have hlt := cstr_length_lt _ m0
        exact ⟨_, e, (cstr_set_zero t0 j m0 (by rw [c0]; omega)).2, by simp [l0]⟩
      · obtain ⟨tmp, l, m, _, h2⟩ := cd_candidate_rel s argv1 hcw ht h0 ha h47 hd
        exact ⟨tmp, (h2 (hrel h47 hd)).1, m, l⟩
  obtain ⟨tmp, e, m, l⟩ := key
  refine ⟨tmp, e, fun fr => ?_⟩
  have hv := cd_verify s argv1 tmp fr e m l hcw
  have hlt := cstr_length_lt _ m
  by_cases hfr : fr = FR_OK
  · refine ⟨_, ?_, fun h => absurd hfr h, fun _ => ⟨hv.2 hfr, ?_⟩⟩
    · rfl
    · have hp := cstr_padded (cstr tmp) (s.g_pcCwdBuf.drop 80) (80 - (cstr tmp).length)
        (cstr_not_mem _) (by omega)
      refine ⟨hp.1, hp.2, ?_⟩
      simp only [List.length_append, List.length_replicate, List.length_drop]
      omega
  · exact ⟨_, rfl, fun _ => ⟨hv.1 hfr, rfl⟩, fun h => absurd h hfr⟩

/-- An instance of `cd_verify_then_commit`: `cd sub` in the root directory. -/
theorem cd_verify_then_commit_instance :
    ∃ tmp, Cmd_cd_candidate Shell.init [115, 117, 98, 0] =
        some (false, { Shell.init with g_pcTmpBuf := tmp }) ∧
      ∀ fr, ∃ s1, s1.fsCalls = Shell.init.fsCalls ++ [FsCall.opendir (cstr tmp)] ∧
        (fr ≠ FR_OK → Cmd_cd Shell.init [115, 117, 98, 0] fr = some ((fr : Int), s1) ∧
          s1.g_pcCwdBuf = Shell.init.g_pcCwdBuf) ∧
        (fr = FR_OK → Cmd_cd Shell.init [115, 117, 98, 0] fr = some (0, s1) ∧
          cstr s1.g_pcCwdBuf = cstr tmp ∧ 0 ∈ s1.g_pcCwdBuf ∧ s1.g_pcCwdBuf.length = 80) :=
  cd_verify_then_commit Shell.init [115, 117, 98, 0] (by decide) (by decide) (by decide)
    (by decide) (by decide) (by decide) (by decide)

/-! ## The claims -/

/-- C1, evaluated. One `cd ..` at start-up with `f_opendir` returning `FR_OK` leaves
`g_pcCwdBuf` 80 zero bytes, an array of the declared size that holds the empty
string. In that state `cd ..` computes `strlen(g_pcTmpBuf) - 1` as `2 ^ 32 - 1`, the
scan reads `g_pcTmpBuf` outside its 80 bytes, and `Cmd_cd` has no defined result
whatever `f_opendir` would return: no code is returned and nothing is known of
`g_pcCwdBuf` afterwards. -/
theorem cd_dotdot_on_empty_cwd_undefined :
    Cmd_cd Shell.init [46, 46, 0] FR_OK =
      some (0, { g_pcCwdBuf := List.replicate 80 0
                 g_pcTmpBuf := List.replicate 80 0
                 console := []
                 fsCalls := [FsCall.opendir []] }) ∧
    cstr (List.replicate 80 0) = [] ∧
    subSizeT 0 1 = 2 ^ 32 - 1 ∧
    scanBack (List.replicate 80 0) (2 ^ 32 - 1) = none ∧
    ∀ fr : Nat,
      Cmd_cd { g_pcCwdBuf := List.replicate 80 0
               g_pcTmpBuf := List.replicate 80 0
               console := []
               fsCalls := [FsCall.opendir []] } [46, 46, 0] fr = none := by
  have hc : Cmd_cd_candidate { g_pcCwdBuf := List.replicate 80 0
                               g_pcTmpBuf := List.replicate 80 0
                               console := []
                               fsCalls := [FsCall.opendir []] } [46, 46, 0] = none := by
    rfl
  refine ⟨rfl, rfl, rfl, rfl, fun fr => ?_⟩
  unfold Cmd_cd
  rw [hc]
  rfl

/-- C2. From the initial state, `n <= 64` bytes below 256, none of them backspace, CR,
LF or ESC, followed by one terminator: the handler is defined on the whole
sequence, the first `n` bytes of `g_pcCmdBuf` are the input, the bytes sent to
the UART are exactly the input bytes in order, `gucCommandReady` is still 0 after
every prefix of the input and is 1 after the terminator. -/
theorem line_editor_accumulates (input : List Nat) (t : Nat)
    (hlen : input.length ≤ 64)
    (hp : ∀ b ∈ input, b < 256 ∧ b ≠ 8 ∧ b ≠ 13 ∧ b ≠ 10 ∧ b ≠ 27)
    (ht : t = 13 ∨ t = 10 ∨ t = 27) :
    ∃ s, runISR LineEditor.init (input ++ [t]) = some s ∧
      s.g_pcCmdBuf.take input.length = input ∧
      s.uart = input ∧
      s.gucCommandReady = 1 ∧
      ∀ k, k ≤ input.length →
        ∃ sk, runISR LineEditor.init (input.take k) = some sk ∧ sk.gucCommandReady = 0 := by
  have hrun := isr_run_plain input LineEditor.init (by simp [LineEditor.init]; omega)
    (by simp [LineEditor.init]) hp
  have hterm : ∀ s : LineEditor, EusciA0_ISR s t =
      some { s with ui32Count := 0, gucCommandReady := 1 } := by
    intro s
    have h8 : t ≠ 8 := by omega
    simp [EusciA0_ISR, h8, ht]
  have hfull : runISR LineEditor.init (input ++ [t]) = some
      { ui32Count := 0, bLastWasCR := 0
        g_pcCmdBuf := input ++ List.drop input.length (List.replicate 64 0)
        gucCommandReady := 1, uart := input } := by
    rw [runISR_append, hrun]
    simp [runISR, hterm, LineEditor.init]
  refine ⟨_, hfull, by simp, rfl, rfl, ?_⟩
  · intro k hk
    have hpk : ∀ b ∈ input.take k, b < 256 ∧ b ≠ 8 ∧ b ≠ 13 ∧ b ≠ 10 ∧ b ≠ 27 :=
      fun b hb => hp b (List.mem_of_mem_take hb)
    have := isr_run_plain (input.take k) LineEditor.init
      (by simp [LineEditor.init]; omega) (by simp [LineEditor.init]) hpk
    exact ⟨_, this, rfl⟩

/-- Witness for C2: the line "ls" followed by CR. -/
theorem line_editor_accumulates_witness :
    ∃ s, runISR LineEditor.init ([108, 115] ++ [13]) = some s ∧
      s.g_pcCmdBuf.take [108, 115].length = [108, 115] ∧
      s.uart = [108, 115] ∧
      s.gucCommandReady = 1 ∧
      ∀ k, k ≤ [108, 115].length →
        ∃ sk, runISR LineEditor.init ([108, 115].take k) = some sk ∧ sk.gucCommandReady = 0 :=
  line_editor_accumulates [108, 115] 13 (by decide) (by decide) (by decide)

/-- C3. The count never exceeds 64 and no store leaves the buffer: from the initial
state the handler is defined on every sequence of received bytes (a store
outside the 64-byte array would leave it undefined), with the count at most
64 afterwards; and with the count at 64 a byte that is neither backspace nor
a terminator leaves the whole state, echo log included, as it was. -/
theorem line_buffer_capacity (input : List Nat) (s : LineEditor) (b : Nat)
    (hc : s.ui32Count = 64) (hb : b ≠ 8 ∧ b ≠ 13 ∧ b ≠ 10 ∧ b ≠ 27) :
    (∃ s1, runISR LineEditor.init input = some s1 ∧ s1.ui32Count ≤ 64 ∧
      s1.g_pcCmdBuf.length = 64) ∧
    EusciA0_ISR s b = some s := by
  constructor
  · obtain ⟨s1, e, l, _, c⟩ := isr_run input LineEditor.init (by simp [LineEditor.init])
      (by simp [LineEditor.init])
    exact ⟨s1, e, c, l⟩
  · simp [EusciA0_ISR, CMD_BUF_SIZE, hb, hc]

/-- Witness for C3: seventy letters from the initial state, and one more letter
received with the count at 64. -/
theorem line_buffer_capacity_witness :
    (∃ s1, runISR LineEditor.init (List.replicate 70 65) = some s1 ∧ s1.ui32Count ≤ 64 ∧
      s1.g_pcCmdBuf.length = 64) ∧
    EusciA0_ISR ⟨64, 0, List.replicate 64 65, 0, []⟩ 66 = some ⟨64, 0, List.replicate 64 65, 0, []⟩ :=
  line_buffer_capacity (List.replicate 70 65) ⟨64, 0, List.replicate 64 65, 0, []⟩ 66 rfl
    (by decide)

/-- C4, evaluated. With one character in the buffer a backspace leaves the count at 1,
overwrites the character with the byte 8 and sends two backspaces; with the
buffer empty a backspace is stored at index 0, counted and echoed. -/
theorem backspace_is_stored :
    EusciA0_ISR ⟨1, 0, 97 :: List.replicate 63 0, 0, [97]⟩ 8 =
      some ⟨1, 0, 8 :: List.replicate 63 0, 0, [97, 8, 8]⟩ ∧
    EusciA0_ISR LineEditor.init 8 = some ⟨1, 0, 8 :: List.replicate 63 0, 0, [8]⟩ := by
  constructor <;> rfl

/-- C5. Each of CR, LF and ESC, in every state, sets the count to 0 and
`gucCommandReady` to 1 and changes nothing else (buffer, echo log and
`bLastWasCR` are as before); an LF directly after a CR sets `gucCommandReady`
again, whatever the flag was set to in between; and `bLastWasCR` is 0 after
every sequence of received bytes. -/
theorem terminators_end_the_line (s : LineEditor) (r : Nat) (input : List Nat) :
    EusciA0_ISR s 13 = some { s with ui32Count := 0, gucCommandReady := 1 } ∧
    EusciA0_ISR s 10 = some { s with ui32Count := 0, gucCommandReady := 1 } ∧
    EusciA0_ISR s 27 = some { s with ui32Count := 0, gucCommandReady := 1 } ∧
    runISR s [13, 10] = some { s with ui32Count := 0, gucCommandReady := 1 } ∧
    EusciA0_ISR { s with ui32Count := 0, gucCommandReady := r } 10 =
      some { s with ui32Count := 0, gucCommandReady := 1 } ∧
    ∃ s1, runISR LineEditor.init input = some s1 ∧ s1.bLastWasCR = 0 := by
  refine ⟨by simp [EusciA0_ISR], by simp [EusciA0_ISR], by simp [EusciA0_ISR],
    by simp [runISR, EusciA0_ISR], by simp [EusciA0_ISR], ?_⟩
  obtain ⟨s1, e, _, c, _⟩ := isr_run input LineEditor.init (by simp [LineEditor.init])
    (by simp [LineEditor.init])
  exact ⟨s1, e, c⟩

/-- C6, evaluated. At start-up (`g_pcCwdBuf` holds "/") the command `cd ..` passes
the empty string to `f_opendir`, and when that call returns `FR_OK` the
current directory becomes the empty string: every byte of `g_pcCwdBuf` is 0. -/
theorem cd_dotdot_at_root_empties_cwd :
    Cmd_cd Shell.init [46, 46, 0] FR_OK =
      some (0, { g_pcCwdBuf := List.replicate 80 0
                 g_pcTmpBuf := List.replicate 80 0
                 console := []
                 fsCalls := [FsCall.opendir []] }) := by
  rfl

/-- C7. When the current directory is "P/S" with `S` non-empty and free of '/', the
command `cd ..` builds the candidate `P`, or "/" when `P` is empty: that string
is in `g_pcTmpBuf` and is the path passed to `f_opendir`. And from start-up,
`cd /a/b` followed by `cd ..`, both directory opens succeeding, leaves the current
directory "/a". -/
theorem cd_dotdot_removes_last_segment (s : Shell) (argv1 P S : List Nat)
    (hcw : s.g_pcCwdBuf.length = 80) (ht : s.g_pcTmpBuf.length = 80)
    (h0 : 0 ∈ s.g_pcCwdBuf) (ha : 0 ∈ argv1) (hd : cstr argv1 = [46, 46])
    (hform : cstr s.g_pcCwdBuf = P ++ 47 :: S) (hS : S ≠ []) (hS47 : 47 ∉ S) :
    (∃ tmp, Cmd_cd_candidate s argv1 = some (false, { s with g_pcTmpBuf := tmp }) ∧
      cstr tmp = (if P = [] then [47] else P) ∧
      ∀ fr, ∃ r s1, Cmd_cd s argv1 fr = some (r, s1) ∧
        s1.fsCalls = s.fsCalls ++ [FsCall.opendir (if P = [] then [47] else P)]) ∧
    ∃ s1 s2, Cmd_cd Shell.init [47, 97, 47, 98, 0] FR_OK = some (0, s1) ∧
      Cmd_cd s1 [46, 46, 0] FR_OK = some (0, s2) ∧ cstr s2.g_pcCwdBuf = [47, 97] := by
  constructor
  · have hne : cstr s.g_pcCwdBuf ≠ [] := by rw [hform]; simp
    obtain ⟨t0, j, c0, m0, l0, ej, hj, e⟩ := cd_candidate_dotdot s argv1 hcw ht h0 ha hd hne
    have hsc := scanBack_segment t0 P S (by rw [c0]; exact hform) hS hS47
    rw [c0] at hsc
    have hjv : j = if P = [] then 1 else P.length := by
      rw [ej] at hsc; exact Option.some.inj hsc
    have hlt := cstr_length_lt _ m0
    have hz := cstr_set_zero t0 j m0 (by rw [c0]; omega)
    have hcand : cstr (t0.set j 0) = if P = [] then [47] else P := by
      rw [hz.1, c0, hform, hjv]
      by_cases hP : P = []
      · subst hP; simp
      · simp [hP]
    refine ⟨_, e, hcand, fun fr => ?_⟩
    have hv := cd_verify s argv1 (t0.set j 0) fr e hz.2 (by simp [l0]) hcw
    by_cases hfr : fr = FR_OK
    · exact ⟨_, _, hv.2 hfr, by rw [hcand]⟩
    · exact ⟨_, _, hv.1 hfr, by rw [hcand]⟩
  · exact ⟨_, _, rfl, rfl, rfl⟩

/-- Witness for C7: `cd ..` in the directory "/a/b". -/
theorem cd_dotdot_removes_last_segment_witness :
    (∃ tmp, Cmd_cd_candidate
        { Shell.init with g_pcCwdBuf := [47, 97, 47, 98] ++ List.replicate 76 0 } [46, 46, 0] =
          some (false, { Shell.init with
            g_pcCwdBuf := [47, 97, 47, 98] ++ List.replicate 76 0, g_pcTmpBuf := tmp }) ∧
      cstr tmp = (if [47, 97] = [] then [47] else [47, 97]) ∧
      ∀ fr, ∃ r s1, Cmd_cd
          { Shell.init with g_pcCwdBuf := [47, 97, 47, 98] ++ List.replicate 76 0 }
          [46, 46, 0] fr = some (r, s1) ∧
        s1.fsCalls = [] ++ [FsCall.opendir (if [47, 97] = [] then [47] else [47, 97])]) ∧
    ∃ s1 s2, Cmd_cd Shell.init [47, 97, 47, 98, 0] FR_OK = some (0, s1) ∧
      Cmd_cd s1 [46, 46, 0] FR_OK = some (0, s2) ∧ cstr s2.g_pcCwdBuf = [47, 97] :=
  cd_dotdot_removes_last_segment
    { Shell.init with g_pcCwdBuf := [47, 97, 47, 98] ++ List.replicate 76 0 } [46, 46, 0]
    [47, 97] [98] (by decide) (by decide) (by decide) (by decide) (by decide) (by decide)
    (by decide) (by decide)

/-- C8. Candidate construction for an argument that passes its length check. An
argument that begins with '/' is itself the candidate. An argument that neither
begins with '/' nor is ".." is appended to the current directory, directly when
the current directory is "/" and after a '/' otherwise. In both cases the
candidate is the string in `g_pcTmpBuf` and the path passed to `f_opendir`. -/
theorem cd_candidate_construction (s : Shell) (argv1 : List Nat)
    (hcw : s.g_pcCwdBuf.length = 80) (ht : s.g_pcTmpBuf.length = 80)
    (h0 : 0 ∈ s.g_pcCwdBuf) (ha : 0 ∈ argv1) :
    (argv1[0]? = some 47 → (cstr argv1).length + 1 ≤ 80 →
      ∃ tmp, Cmd_cd_candidate s argv1 = some (false, { s with g_pcTmpBuf := tmp }) ∧
        cstr tmp = cstr argv1 ∧
        ∀ fr, ∃ r s1, Cmd_cd s argv1 fr = some (r, s1) ∧
          s1.fsCalls = s.fsCalls ++ [FsCall.opendir (cstr argv1)]) ∧
    (argv1[0]? ≠ some 47 → cstr argv1 ≠ [46, 46] →
      (cstr s.g_pcCwdBuf).length + (cstr argv1).length + 1 + 1 ≤ 80 →
      ∃ tmp, Cmd_cd_candidate s argv1 = some (false, { s with g_pcTmpBuf := tmp }) ∧
        cstr tmp = (if cstr s.g_pcCwdBuf = [47] then cstr s.g_pcCwdBuf ++ cstr argv1
          else cstr s.g_pcCwdBuf ++ [47] ++ cstr argv1) ∧
        ∀ fr, ∃ r s1, Cmd_cd s argv1 fr = some (r, s1) ∧
          s1.fsCalls = s.fsCalls ++ [FsCall.opendir
            (if cstr s.g_pcCwdBuf = [47] then cstr s.g_pcCwdBuf ++ cstr argv1
              else cstr s.g_pcCwdBuf ++ [47] ++ cstr argv1)]) := by
  have fin : ∀ tmp cand, Cmd_cd_candidate s argv1 = some (false, { s with g_pcTmpBuf := tmp }) →
      tmp.length = 80 → 0 ∈ tmp → cstr tmp = cand →
      ∀ fr, ∃ r s1, Cmd_cd s argv1 fr = some (r, s1) ∧
        s1.fsCalls = s.fsCalls ++ [FsCall.opendir cand] := by
    intro tmp cand e l m hc fr
    have hv := cd_verify s argv1 tmp fr e m l hcw
    by_cases hfr : fr = FR_OK
    · exact ⟨_, _, hv.2 hfr, by rw [hc]⟩
    · exact ⟨_, _, hv.1 hfr, by rw [hc]⟩
  constructor
  · intro h47 hlen
    obtain ⟨c, r, rfl⟩ := head_of_mem_zero argv1 ha
    have hc : c = 47 := by simpa using h47
    subst hc
    obtain ⟨tmp, l, m, _, h2⟩ := cd_candidate_abs s r hcw ht h0 ha
    exact ⟨tmp, (h2 hlen).1, (h2 hlen).2, fin tmp _ (h2 hlen).1 l m (h2 hlen).2⟩
  · intro h47 hd hlen
    obtain ⟨tmp, l, m, _, h2⟩ := cd_candidate_rel s argv1 hcw ht h0 ha h47 hd
    have hc : cstr tmp = (if cstr s.g_pcCwdBuf = [47] then cstr s.g_pcCwdBuf ++ cstr argv1
        else cstr s.g_pcCwdBuf ++ [47] ++ cstr argv1) := by
      rw [(h2 hlen).2]
      by_cases hr : cstr s.g_pcCwdBuf = [47]
      · rw [if_pos hr, if_pos hr, List.append_nil]
      · rw [if_neg hr, if_neg hr]
    exact ⟨tmp, (h2 hlen).1, hc, fin tmp _ (h2 hlen).1 l m hc⟩

/-- Witness for C8: `cd /x` and `cd sub`, both in the directory "/a". -/
theorem cd_candidate_construction_witness :
    (∃ tmp, Cmd_cd_candidate
        { Shell.init with g_pcCwdBuf := [47, 97] ++ List.replicate 78 0 } [47, 120, 0] =
          some (false, { Shell.init with
            g_pcCwdBuf := [47, 97] ++ List.replicate 78 0, g_pcTmpBuf := tmp }) ∧
      cstr tmp = [47, 120] ∧
      ∀ fr, ∃ r s1, Cmd_cd { Shell.init with g_pcCwdBuf := [47, 97] ++ List.replicate 78 0 }
          [47, 120, 0] fr = some (r, s1) ∧
        s1.fsCalls = [FsCall.opendir [47, 120]]) ∧
    (∃ tmp, Cmd_cd_candidate
        { Shell.init with g_pcCwdBuf := [47, 97] ++ List.replicate 78 0 } [115, 117, 98, 0] =
          some (false, { Shell.init with
            g_pcCwdBuf := [47, 97] ++ List.replicate 78 0, g_pcTmpBuf := tmp }) ∧
      cstr tmp = [47, 97, 47, 115, 117, 98] ∧
      ∀ fr, ∃ r s1, Cmd_cd { Shell.init with g_pcCwdBuf := [47, 97] ++ List.replicate 78 0 }
          [115, 117, 98, 0] fr = some (r, s1) ∧
        s1.fsCalls = [FsCall.opendir [47, 97, 47, 115, 117, 98]]) :=
  ⟨(cd_candidate_construction
      { Shell.init with g_pcCwdBuf := [47, 97] ++ List.replicate 78 0 } [47, 120, 0]
      (by decide) (by decide) (by decide) (by decide)).1 (by decide) (by decide),
   (cd_candidate_construction
      { Shell.init with g_pcCwdBuf := [47, 97] ++ List.replicate 78 0 } [115, 117, 98, 0]
      (by decide) (by decide) (by decide) (by decide)).2 (by decide) (by decide) (by decide)⟩

/-- C9. Path-too-long rejection. When the argument of `cd` is absolute and does not fit
with its NUL in 80 bytes, or is relative and the path current directory,
separator (none at "/"), argument does not fit, `Cmd_cd` returns 0 with
`g_pcCwdBuf` and the list of filesystem calls as they were; so does `Cmd_cat` for
the path it would build. Conversely `Cmd_cd` always returns, having made either
no filesystem call or one `f_opendir` call with a path of at most 79 bytes; and
whenever `Cmd_cat` returns it has made either no filesystem call or one `f_open`
call with a path of at most 79 bytes followed by `f_read` calls only, and it
does return when `f_open` fails. -/
theorem path_too_long_is_rejected (s : Shell) (argv1 : List Nat) (fr fo : Nat)
    (reads : List (Nat × List Nat))
    (hcw : s.g_pcCwdBuf.length = 80) (ht : s.g_pcTmpBuf.length = 80)
    (h0 : 0 ∈ s.g_pcCwdBuf) (ha : 0 ∈ argv1)
    (hdd : cstr argv1 = [46, 46] → cstr s.g_pcCwdBuf ≠ []) :
    (argv1[0]? = some 47 → 80 < (cstr argv1).length + 1 →
      ∃ s1, Cmd_cd s argv1 fr = some (0, s1) ∧ s1.g_pcCwdBuf = s.g_pcCwdBuf ∧
        s1.fsCalls = s.fsCalls) ∧
    (argv1[0]? ≠ some 47 → cstr argv1 ≠ [46, 46] →
      80 < (cstr s.g_pcCwdBuf ++ (if cstr s.g_pcCwdBuf = [47] then [] else [47]) ++
        cstr argv1).length + 1 →
      ∃ s1, Cmd_cd s argv1 fr = some (0, s1) ∧ s1.g_pcCwdBuf = s.g_pcCwdBuf ∧
        s1.fsCalls = s.fsCalls) ∧
    (80 < (cstr s.g_pcCwdBuf ++ (if cstr s.g_pcCwdBuf = [47] then [] else [47]) ++
        cstr argv1).length + 1 →
      ∃ s1, Cmd_cat s argv1 fo reads = some (0, s1) ∧ s1.g_pcCwdBuf = s.g_pcCwdBuf ∧
        s1.fsCalls = s.fsCalls) ∧
    (∃ r s1, Cmd_cd s argv1 fr = some (r, s1) ∧
      (s1.fsCalls = s.fsCalls ∨
        ∃ p, s1.fsCalls = s.fsCalls ++ [FsCall.opendir p] ∧ p.length ≤ 79)) ∧
    (∀ r s2, Cmd_cat s argv1 fo reads = some (r, s2) →
      s2.fsCalls = s.fsCalls ∨
        ∃ p k, s2.fsCalls = s.fsCalls ++ FsCall.open p :: List.replicate k (FsCall.read 79) ∧
          p.length ≤ 79) ∧
    (fo ≠ FR_OK → ∃ r s2, Cmd_cat s argv1 fo reads = some (r, s2)) := by
  have hsep : ∀ x : List Nat, (if x = [47] then ([] : List Nat) else [47]).length ≤ 1 := by
    intro x; split <;> simp
  have hlong : 80 < (cstr s.g_pcCwdBuf ++ (if cstr s.g_pcCwdBuf = [47] then [] else [47]) ++
        cstr argv1).length + 1 →
      80 < (cstr s.g_pcCwdBuf).length + (cstr argv1).length + 1 + 1 := by
    intro h
    have := hsep (cstr s.g_pcCwdBuf)
    simp only [List.length_append] at h
    omega
  refine ⟨?_, ?_, ?_, ?_, ?_, ?_⟩
  · intro h47 hl
    obtain ⟨c, r, rfl⟩ := head_of_mem_zero argv1 ha
    have hc : c = 47 := by simpa using h47
    subst hc
    obtain ⟨tmp, l, m, h1, _⟩ := cd_candidate_abs s r hcw ht h0 ha
    exact ⟨_, cd_rejected s _ _ fr (h1 hl), rfl, rfl⟩
  · intro h47 hd hl
    obtain ⟨tmp, l, m, h1, _⟩ := cd_candidate_rel s argv1 hcw ht h0 ha h47 hd
    exact ⟨_, cd_rejected s _ _ fr (h1 (hlong hl)), rfl, rfl⟩
  · intro hl
    have hp := (cat_path s argv1 hcw ht h0 ha).1 (hlong hl)
    refine ⟨{ s with console := s.console ++ msgTooLong }, ?_, rfl, rfl⟩
    unfold Cmd_cat
    simp [hp]
  · obtain ⟨tmp, l, m, h | h⟩ := cd_candidate_total s argv1 hcw ht h0 ha hdd
    · exact ⟨_, _, cd_rejected s _ _ fr h, Or.inl rfl⟩
    · have hv := cd_verify s argv1 tmp fr h m l hcw
      have hlt := cstr_length_lt _ m
      by_cases hfr : fr = FR_OK
      · exact ⟨_, _, hv.2 hfr, Or.inr ⟨cstr tmp, rfl, by omega⟩⟩
      · exact ⟨_, _, hv.1 hfr, Or.inr ⟨cstr tmp, rfl, by omega⟩⟩
  · intro r s2 h
    by_cases hl : 80 < (cstr s.g_pcCwdBuf).length + (cstr argv1).length + 1 + 1
    · have hp := (cat_path s argv1 hcw ht h0 ha).1 hl
      unfold Cmd_cat at h
      simp [hp] at h
      left
      rw [← h.2]
    · obtain ⟨tmp, l, m, hp, _⟩ := (cat_path s argv1 hcw ht h0 ha).2 (by omega)
      have hlt := cstr_length_lt _ m
      unfold Cmd_cat at h
      simp only [hp, Option.bind_eq_bind, Option.some_bind, readString_eq _ m] at h
      right
      by_cases hfo : fo ≠ FR_OK
      · simp [hfo] at h
        refine ⟨cstr tmp, 0, ?_, by omega⟩
        rw [← h.2]
        simp
      · simp [hfo] at h
        obtain ⟨_, k, hk⟩ := cat_loop_calls reads _ r s2 h
        exact ⟨cstr tmp, k, by rw [hk]; simp, by omega⟩
  · intro hfo
    by_cases hl : 80 < (cstr s.g_pcCwdBuf).length + (cstr argv1).length + 1 + 1
    · have hp := (cat_path s argv1 hcw ht h0 ha).1 hl
      exact ⟨0, { s with console := s.console ++ msgTooLong }, by unfold Cmd_cat; simp [hp]⟩
    · obtain ⟨tmp, l, m, hp, _⟩ := (cat_path s argv1 hcw ht h0 ha).2 (by omega)
      refine ⟨(fo : Int),
        { s with g_pcTmpBuf := tmp, fsCalls := s.fsCalls ++ [FsCall.open (cstr tmp)] }, ?_⟩
      unfold Cmd_cat
      simp only [hp, Option.bind_eq_bind, Option.some_bind, readString_eq _ m]
      simp [hfo]

/-- Witness for C9: in the root directory, an absolute argument of 80 characters and
a relative argument of 79 characters. -/
theorem path_too_long_is_rejected_witness :
    (∃ s1, Cmd_cd Shell.init (47 :: List.replicate 79 97 ++ [0]) 4 = some (0, s1) ∧
      s1.g_pcCwdBuf = Shell.init.g_pcCwdBuf ∧ s1.fsCalls = Shell.init.fsCalls) ∧
    (∃ s1, Cmd_cd Shell.init (List.replicate 79 97 ++ [0]) 4 = some (0, s1) ∧
      s1.g_pcCwdBuf = Shell.init.g_pcCwdBuf ∧ s1.fsCalls = Shell.init.fsCalls) ∧
    (∃ s1, Cmd_cat Shell.init (List.replicate 79 97 ++ [0]) 4 [] = some (0, s1) ∧
      s1.g_pcCwdBuf = Shell.init.g_pcCwdBuf ∧ s1.fsCalls = Shell.init.fsCalls) ∧
    (∃ r s1, Cmd_cd Shell.init [115, 117, 98, 0] 4 = some (r, s1) ∧
      (s1.fsCalls = Shell.init.fsCalls ∨
        ∃ p, s1.fsCalls = Shell.init.fsCalls ++ [FsCall.opendir p] ∧ p.length ≤ 79)) ∧
    (∃ r s2, Cmd_cat Shell.init [115, 117, 98, 0] 4 [] = some (r, s2)) :=
  ⟨(path_too_long_is_rejected Shell.init (47 :: List.replicate 79 97 ++ [0]) 4 4 []
      (by decide) (by decide) (by decide) (by decide) (by decide)).1 (by decide) (by decide),
   (path_too_long_is_rejected Shell.init (List.replicate 79 97 ++ [0]) 4 4 []
      (by decide) (by decide) (by decide) (by decide) (by decide)).2.1
      (by decide) (by decide) (by decide),
   (path_too_long_is_rejected Shell.init (List.replicate 79 97 ++ [0]) 4 4 []
      (by decide) (by decide) (by decide) (by decide) (by decide)).2.2.1 (by decide),
   (path_too_long_is_rejected Shell.init [115, 117, 98, 0] 4 4 []
      (by decide) (by decide) (by decide) (by decide) (by decide)).2.2.2.1,
   (path_too_long_is_rejected Shell.init [115, 117, 98, 0] 4 4 []
      (by decide) (by decide) (by decide) (by decide) (by decide)).2.2.2.2.2 (by decide)⟩

/-- C10, evaluated. From start-up, `cd ..` with `f_opendir` returning `FR_OK` leaves
`g_pcCwdBuf` holding the empty string, which does not begin with '/'; a second
`cd ..` then reads `g_pcTmpBuf` at index `2 ^ 32 - 1` and has no defined result. -/
theorem cwd_invariant_broken_at_root :
    (runCd Shell.init [([46, 46, 0], FR_OK)]).map (fun s => cstr s.g_pcCwdBuf) = some [] ∧
    (runCd Shell.init [([46, 46, 0], FR_OK)]).map (fun s => s.g_pcCwdBuf[0]?) = some (some 0) ∧
    runCd Shell.init [([46, 46, 0], FR_OK), ([46, 46, 0], FR_OK)] = none := by
  refine ⟨rfl, rfl, rfl⟩

/-- C11. The read loop of `Cmd_cat`, with `f_read` delivering the next `min(79, remaining)`
bytes of a file of length `L` that holds no NUL, and the path fitting the buffer.
`Cmd_cat` returns 0 after the `f_open` call and exactly `L / 79 + 1` `f_read`
calls; what it prints between the two line breaks is the file content; every
chunk was terminated inside `g_pcTmpBuf` (a store outside the 80 bytes would
leave the result undefined), which still holds its 80 bytes and a NUL; the last
read delivered `L % 79` bytes, none when `L` is a multiple of 79. And when a
read returns a code other than `FR_OK` after reads that each filled the
79 bytes, that code is returned and no further read is made. -/
theorem Cmd_cat_reads_whole_file (s : Shell) (argv1 content : List Nat) (n : Nat)
    (hcw : s.g_pcCwdBuf.length = 80) (ht : s.g_pcTmpBuf.length = 80)
    (h0 : 0 ∈ s.g_pcCwdBuf) (ha : 0 ∈ argv1)
    (hfit : (cstr s.g_pcCwdBuf).length + (cstr argv1).length + 1 + 1 ≤ 80)
    (hnul : 0 ∉ content) (hn : content.length / 79 < n) :
    (∃ s1 path, Cmd_cat s argv1 FR_OK (fileReads content n) = some (0, s1) ∧
      s1.console = s.console ++ bytes "\r\n" ++ content ++ bytes "\r\n" ∧
      s1.fsCalls = s.fsCalls ++ FsCall.open path ::
        List.replicate (content.length / 79 + 1) (FsCall.read 79) ∧
      s1.g_pcTmpBuf.length = 80 ∧ 0 ∈ s1.g_pcTmpBuf) ∧
    ((fileReads content n)[content.length / 79]?).map (fun o => o.2.length) =
      some (content.length % 79) ∧
    (∀ (pre : List (Nat × List Nat)) (e : Nat) (data : List Nat)
        (rest : List (Nat × List Nat)),
      (∀ o ∈ pre, o.1 = FR_OK ∧ 79 ≤ o.2.length) → e ≠ FR_OK →
      ∃ s1 path, Cmd_cat s argv1 FR_OK (pre ++ (e, data) :: rest) = some ((e : Int), s1) ∧
        s1.fsCalls = s.fsCalls ++ FsCall.open path ::
          List.replicate (pre.length + 1) (FsCall.read 79)) := by
  obtain ⟨tmp, l, m, hp, _⟩ := (cat_path s argv1 hcw ht h0 ha).2 hfit
  have hcat : ∀ reads, Cmd_cat s argv1 FR_OK reads =
      Cmd_cat_loop
        { s with
          g_pcTmpBuf := tmp
          fsCalls := s.fsCalls ++ [FsCall.open (cstr tmp)]
          console := s.console ++ bytes "\r\n" } reads := by
    intro reads
    unfold Cmd_cat
    simp only [hp, Option.bind_eq_bind, Option.some_bind, readString_eq _ m]
    simp
  refine ⟨?_, ?_, ?_⟩
  · obtain ⟨tmp1, l1, m1, e1⟩ := cat_loop_file n content
      { s with
        g_pcTmpBuf := tmp
        fsCalls := s.fsCalls ++ [FsCall.open (cstr tmp)]
        console := s.console ++ bytes "\r\n" } hnul l hn
    refine ⟨_, cstr tmp, by rw [hcat, e1], rfl, ?_, l1, m1⟩
    simp
  · rw [fileReads_get n content _ hn]
    simp only [Option.map_some', List.length_take, List.length_drop, Option.some.injEq]
    omega
  · intro pre e data rest hpre he
    obtain ⟨s1, e1, f1⟩ := cat_loop_stops pre
      { s with
        g_pcTmpBuf := tmp
        fsCalls := s.fsCalls ++ [FsCall.open (cstr tmp)]
        console := s.console ++ bytes "\r\n" } e data rest hpre l he
    refine ⟨s1, cstr tmp, by rw [hcat, e1], ?_⟩
    rw [f1]
    simp

/-- Witness for C11: `cat f` in the root directory on a file of 79 letters, read in two
calls of which the second delivers nothing. -/
theorem Cmd_cat_reads_whole_file_witness :
    (∃ s1 path, Cmd_cat Shell.init [102, 0] FR_OK (fileReads (List.replicate 79 65) 2) =
        some (0, s1) ∧
      s1.console = [] ++ bytes "\r\n" ++ List.replicate 79 65 ++ bytes "\r\n" ∧
      s1.fsCalls = [] ++ FsCall.open path :: List.replicate 2 (FsCall.read 79) ∧
      s1.g_pcTmpBuf.length = 80 ∧ 0 ∈ s1.g_pcTmpBuf) ∧
    ((fileReads (List.replicate 79 65) 2)[1]?).map (fun o => o.2.length) = some 0 ∧
    (∃ s1 path, Cmd_cat Shell.init [102, 0] FR_OK
        ([(FR_OK, List.replicate 79 65)] ++ (1, []) :: []) = some (1, s1) ∧
      s1.fsCalls = [] ++ FsCall.open path :: List.replicate 2 (FsCall.read 79)) :=
  have h := Cmd_cat_reads_whole_file Shell.init [102, 0] (List.replicate 79 65) 2
    (by decide) (by decide) (by decide) (by decide) (by decide) (by decide) (by decide)
  ⟨h.1, h.2.1, h.2.2 [(FR_OK, List.replicate 79 65)] 1 [] [] (by decide) (by decide)⟩

/-- C12. `StringFromFResult` returns for each of the 20 codes of `g_psFResultStrings`
the string listed with it, which is the name of the enumerant (`FR_NO_PATH`, of
value 5, gives "FR_NO_PATH"); for every code that the table does not list it
returns "UNKNOWN ERROR CODE"; the 20 codes of the table are pairwise distinct, and
so are the 20 strings, so that two listed codes with the same result are equal. -/
theorem StringFromFResult_table :
    g_psFResultStrings.length = 20 ∧
    (∀ e ∈ g_psFResultStrings, StringFromFResult e.1 = e.2) ∧
    StringFromFResult 5 = "FR_NO_PATH" ∧
    (∀ c : Int, c ∉ g_psFResultStrings.map Prod.fst →
      StringFromFResult c = "UNKNOWN ERROR CODE") ∧
    (g_psFResultStrings.map Prod.fst).Nodup ∧
    (g_psFResultStrings.map Prod.snd).Nodup ∧
    (∀ e1 ∈ g_psFResultStrings, ∀ e2 ∈ g_psFResultStrings,
      StringFromFResult e1.1 = StringFromFResult e2.1 → e1.1 = e2.1) := by
  refine ⟨rfl, by decide, by decide, ?_, by decide, by decide, by decide⟩
  intro c hc
  exact StringFromFResult_loop_unknown _ c hc

/-- C13. One pass of the main loop with `gucCommandReady` set, a line in `g_pcCmdBuf`, a
dispatcher status `status` that fits `int8_t`, and two sentinel codes that differ
from each other and from 0. After what the command itself printed, the pass
prints exactly one message and then ">": "Bad or no command!" when the status is
`CMDLINE_BAD_CMD`, "Too many arguments for command processor!" when it is
`CMDLINE_TOO_MANY_ARGS`, "Command returned error code " followed by
`StringFromFResult status` for any other status that is not 0, and no message for
0. Afterwards `g_pcCmdBuf` is 64 zero bytes and `gucCommandReady` is 0. -/
theorem main_loop_reports (CMDLINE_BAD_CMD CMDLINE_TOO_MANY_ARGS : Int) (s : LineEditor)
    (status : Int) (out : List Nat)
    (hready : s.gucCommandReady ≠ 0) (hline : 0 ∈ s.g_pcCmdBuf)
    (hlo : -128 ≤ status) (hhi : status ≤ 127)
    (hdist : CMDLINE_BAD_CMD ≠ CMDLINE_TOO_MANY_ARGS)
    (hbad : CMDLINE_BAD_CMD ≠ 0) (hmany : CMDLINE_TOO_MANY_ARGS ≠ 0) :
    ∃ s1 msg, main_loop CMDLINE_BAD_CMD CMDLINE_TOO_MANY_ARGS s status out = some s1 ∧
      s1.uart = s.uart ++ out ++ msg ++ bytes ">" ∧
      (status = CMDLINE_BAD_CMD → msg = bytes "Bad or no command!\r\n") ∧
      (status = CMDLINE_TOO_MANY_ARGS →
        msg = bytes "Too many arguments for command processor!\r\n") ∧
      (status ≠ CMDLINE_BAD_CMD → status ≠ CMDLINE_TOO_MANY_ARGS → status ≠ 0 →
        msg = bytes "Command returned error code " ++ bytes (StringFromFResult status) ++
          bytes "\r\n") ∧
      (status = 0 → msg = []) ∧
      s1.g_pcCmdBuf = List.replicate 64 0 ∧
      s1.gucCommandReady = 0 := by
  have h8 := toInt8_of_range status hlo hhi
  have hdef : main_loop CMDLINE_BAD_CMD CMDLINE_TOO_MANY_ARGS s status out =
      some
        { s with
          g_pcCmdBuf := List.replicate 64 0
          gucCommandReady := 0
          uart := s.uart ++ out ++
            (if status = CMDLINE_BAD_CMD then bytes "Bad or no command!\r\n"
             else if status = CMDLINE_TOO_MANY_ARGS then
               bytes "Too many arguments for command processor!\r\n"
             else if status ≠ 0 then
               bytes "Command returned error code " ++ bytes (StringFromFResult status) ++
                 bytes "\r\n"
             else []) ++ bytes ">" } := by
    unfold main_loop
    rw [if_pos hready, readString_eq _ hline]
    simp only [h8, CMD_BUF_SIZE]
    by_cases hb : status = CMDLINE_BAD_CMD
    · rw [if_pos hb, if_pos hb]
    · rw [if_neg hb, if_neg hb]
      by_cases ht : status = CMDLINE_TOO_MANY_ARGS
      · rw [if_pos ht, if_pos ht]
      · rw [if_neg ht, if_neg ht]
        by_cases hz : status ≠ 0
        · rw [if_pos hz, if_pos hz]
          simp
        · rw [if_neg hz, if_neg hz]
          simp
  refine ⟨_, _, hdef, rfl, ?_, ?_, ?_, ?_, rfl, rfl⟩
  · intro h; rw [if_pos h]
  · intro h
    rw [if_neg (by rw [h]; exact fun e => hdist e.symm), if_pos h]
  · intro hb ht hz
    rw [if_neg hb, if_neg ht, if_pos hz]
  · intro hz
    rw [if_neg (by rw [hz]; exact fun e => hbad e.symm),
      if_neg (by rw [hz]; exact fun e => hmany e.symm), if_neg (by simp [hz])]

/-- Witness for C13: the line "ls" is ready, the sentinel codes are -1 and -2, and the
command returned 3. -/
theorem main_loop_reports_witness :
    ∃ s1 msg, main_loop (-1) (-2) ⟨0, 0, [108, 115] ++ List.replicate 62 0, 1, [108, 115]⟩ 3 [] =
        some s1 ∧
      s1.uart = [108, 115] ++ [] ++ msg ++ bytes ">" ∧
      (3 = (-1 : Int) → msg = bytes "Bad or no command!\r\n") ∧
      (3 = (-2 : Int) → msg = bytes "Too many arguments for command processor!\r\n") ∧
      ((3 : Int) ≠ -1 → (3 : Int) ≠ -2 → (3 : Int) ≠ 0 →
        msg = bytes "Command returned error code " ++ bytes (StringFromFResult 3) ++
          bytes "\r\n") ∧
      ((3 : Int) = 0 → msg = []) ∧
      s1.g_pcCmdBuf = List.replicate 64 0 ∧
      s1.gucCommandReady = 0 :=
  main_loop_reports (-1) (-2) ⟨0, 0, [108, 115] ++ List.replicate 62 0, 1, [108, 115]⟩ 3 []
    (by decide) (by decide) (by decide) (by decide) (by decide) (by decide) (by decide)

/-- C14. Lookup of a first token in `g_psCmdTable` by exact string equality, in table
order: "help", "h" and "?" select `Cmd_help`, "ls" selects `Cmd_ls`, "chdir" and "cd"
select `Cmd_cd`, "pwd" selects `Cmd_pwd`, "cat" selects `Cmd_cat`; every token that
is none of these eight names selects no handler, and so do the case variants
"LS", "Help" and "CD"; the eight names are pairwise distinct, and every entry is
found under its own name. -/
theorem lookupCommand_table :
    lookupCommand g_psCmdTable (bytes "help") = some Handler.Cmd_help ∧
    lookupCommand g_psCmdTable (bytes "h") = some Handler.Cmd_help ∧
    lookupCommand g_psCmdTable (bytes "?") = some Handler.Cmd_help ∧
    lookupCommand g_psCmdTable (bytes "ls") = some Handler.Cmd_ls ∧
    lookupCommand g_psCmdTable (bytes "chdir") = some Handler.Cmd_cd ∧
    lookupCommand g_psCmdTable (bytes "cd") = some Handler.Cmd_cd ∧
    lookupCommand g_psCmdTable (bytes "pwd") = some Handler.Cmd_pwd ∧
    lookupCommand g_psCmdTable (bytes "cat") = some Handler.Cmd_cat ∧
    (∀ token : List Nat,
      token ∉ [bytes "help", bytes "h", bytes "?", bytes "ls", bytes "chdir", bytes "cd",
        bytes "pwd", bytes "cat"] →
      lookupCommand g_psCmdTable token = none) ∧
    lookupCommand g_psCmdTable (bytes "LS") = none ∧
    lookupCommand g_psCmdTable (bytes "Help") = none ∧
    lookupCommand g_psCmdTable (bytes "CD") = none ∧
    g_psCmdTable.length = 8 ∧
    (g_psCmdTable.map (fun e => e.pcCmd)).Nodup ∧
    (∀ e ∈ g_psCmdTable, lookupCommand g_psCmdTable e.pcCmd = some e.pfnCmd) := by
  refine ⟨by decide, by decide, by decide, by decide, by decide, by decide, by decide,
    by decide, ?_, by decide, by decide, by decide, rfl, by decide, by decide⟩
  intro token h
  exact lookupCommand_none _ token h

/-- C15. For a date word packed from a year in 1980..2107, a month field in 0..15 and a
day field in 0..31, and a time word packed from an hour field in 0..31, a minute
field in 0..63 and a seconds field in 0..31, both words fit in 16 bits and the
five values `Cmd_ls` prints are the year, month, day, hour and minute packed. -/
theorem Cmd_ls_datetime_decodes (year month day hour minute seconds_field : Nat)
    (hy1 : 1980 ≤ year) (hy2 : year ≤ 2107) (hm : month ≤ 15) (hd : day ≤ 31)
    (hh : hour ≤ 31) (hmin : minute ≤ 63) (hs : seconds_field ≤ 31) :
    packDate year month day < 2 ^ 16 ∧ packTime hour minute seconds_field < 2 ^ 16 ∧
    Cmd_ls_datetime (packDate year month day) (packTime hour minute seconds_field) =
      (year, month, day, hour, minute) := by
  have ed : packDate year month day = (year - 1980) * 512 + month * 32 + day := by
    have := or_fields (year - 1980) month day 4 5 (by norm_num; omega) (by norm_num; omega)
    simpa [packDate] using this
  have et : packTime hour minute seconds_field = hour * 2048 + minute * 32 + seconds_field := by
    have := or_fields hour minute seconds_field 6 5 (by norm_num; omega) (by norm_num; omega)
    simpa [packTime] using this
  have m15 : ∀ x : Nat, x &&& 15 = x % 16 := fun x => and_mask x 4
  have m31 : ∀ x : Nat, x &&& 31 = x % 32 := fun x => and_mask x 5
  have m63 : ∀ x : Nat, x &&& 63 = x % 64 := fun x => and_mask x 6
  refine ⟨by rw [ed]; omega, by rw [et]; omega, ?_⟩
  simp only [Cmd_ls_datetime, Nat.shiftRight_eq_div_pow, m15, m31, m63, ed, et]
  norm_num
  refine ⟨?_, ?_, ?_, ?_, ?_⟩ <;> omega

/-- Witness for C15: 30 October 2026, 14:27:36 (seconds field 18). -/
theorem Cmd_ls_datetime_decodes_witness :
    packDate 2026 10 30 < 2 ^ 16 ∧ packTime 14 27 18 < 2 ^ 16 ∧
    Cmd_ls_datetime (packDate 2026 10 30) (packTime 14 27 18) = (2026, 10, 30, 14, 27) :=
  Cmd_ls_datetime_decodes 2026 10 30 14 27 18 (by decide) (by decide) (by decide) (by decide)
    (by decide) (by decide) (by decide)

/-- C16, evaluated. From the initial state, 64 letters followed by CR: when
`gucCommandReady` is set all 64 bytes of `g_pcCmdBuf` are letters, the buffer
holds no NUL and no string to read, and the pass of the main loop that hands the
buffer to `CmdLineProcess` has no defined result. -/
theorem full_line_is_not_terminated :
    (runISR LineEditor.init (List.replicate 64 97 ++ [13])).map
        (fun s => (s.gucCommandReady, s.g_pcCmdBuf, readString s.g_pcCmdBuf)) =
      some (1, List.replicate 64 97, none) ∧
    ∀ (b t status : Int) (out : List Nat),
      (runISR LineEditor.init (List.replicate 64 97 ++ [13])).bind
        (fun s => main_loop b t s status out) = none := by
  have hrun : runISR LineEditor.init (List.replicate 64 97 ++ [13]) =
      some ⟨0, 0, List.replicate 64 97, 1, List.replicate 64 97⟩ := by
    rfl
  refine ⟨by rw [hrun]; rfl, fun b t status out => ?_⟩
  rw [hrun]
  rfl

end MSP432
